import Mathlib

/-!
# wp-converter: a verification development

Shallow embedding of `main.go` (a WordPress export to Markdown converter) and of
the Go standard-library functions it calls, followed by theorems about file-name
derivation, date normalisation, document assembly and the output directory.

Go strings are modelled as the list of their runes (`List Char`): every string
the program handles comes out of `encoding/xml`, which only yields valid UTF-8.
-/

namespace WpConverter

/-! ## Strings -/

/-- A Go string, as the sequence of its runes. -/
abbrev GoString := List Char

/-- A Go `rune` (an `int32`); negative values are never code points. -/
abbrev Rune := Int

/-- The rune a character of a string decodes to. -/
def runeOf (c : Char) : Rune := (c.toNat : Int)

/-- The character `strings.Builder.WriteRune` appends for a non-negative rune:
the rune itself when it is a Unicode scalar value, U+FFFD otherwise. -/
def writeRune (r : Rune) : Char :=
  if r.toNat.isValidChar then Char.ofNat r.toNat else Char.ofNat 0xFFFD

/-- Go `strings.ContainsRune(s, r)`: whether `r` is one of the runes of `s`. -/
def ContainsRune (s : GoString) (r : Rune) : Bool :=
  s.any (fun c => runeOf c == r)

/-- Go `strings.Map(mapping, s)`: every rune is replaced by its image, and
dropped when the image is negative. -/
def Map (mapping : Rune → Rune) : GoString → GoString
  | [] => []
  | c :: cs =>
    let r := mapping (runeOf c)
    if 0 ≤ r then writeRune r :: Map mapping cs else Map mapping cs

/-- The loop of Go `strings.Replace` for a non-empty `old` and `n < 0`: scan
left to right, replace each leftmost occurrence and resume after it. `skip`
counts the runes of a matched occurrence still to be passed over. -/
def replaceFrom (old new : GoString) : Nat → GoString → GoString
  | _, [] => []
  | skip + 1, _ :: cs => replaceFrom old new skip cs
  | 0, c :: cs =>
    if old.isPrefixOf (c :: cs) then new ++ replaceFrom old new (old.length - 1) cs
    else c :: replaceFrom old new 0 cs

/-- Go `strings.ReplaceAll(s, old, new)`: all non-overlapping occurrences of
`old` replaced by `new`; an empty `old` matches before every rune and at the
end. -/
def ReplaceAll (s old new : GoString) : GoString :=
  if old = new then s
  else if old = [] then new ++ s.flatMap (fun c => c :: new)
  else replaceFrom old new 0 s

/-- Go `strings.Join(elems, sep)`. -/
def Join : List GoString → GoString → GoString
  | [], _ => []
  | [a], _ => a
  | a :: b :: rest, sep => a ++ sep ++ Join (b :: rest) sep

/-! ## File names -/

/-- The literal of permitted characters in `SanitizeFileName`. -/
def allowedRunes : GoString :=
  "abcdefghijklmnopqrstuvwxyzABCDEFGHIJKLMNOPQRSTUVWXYZ0123456789_-".toList

/-- The mapping closure of `SanitizeFileName`. -/
def sanitizeRune (r : Rune) : Rune :=
  if ContainsRune allowedRunes r || r == runeOf ' ' then r else -1

/-- The function `SanitizeFileName` of `main.go`. -/
def SanitizeFileName (input : GoString) : GoString :=
  let fileName := Map sanitizeRune input
  ReplaceAll fileName " ".toList "_".toList

/-- The file name `main` derives from a title: `SanitizeFileName(item.Title) + ".md"`. -/
def fileNameOf (title : GoString) : GoString :=
  SanitizeFileName title ++ ".md".toList

/-! ## Go `time`: instants and calendar arithmetic

The definitions of this section embed the parts of Go's standard `time` package
(time.go and format.go) that `parseDate` runs: `time.Parse` for the layout
`time.RFC1123Z` and `Time.Format` for the layout `time.RFC3339`. The calendar
arithmetic is written as in Go 1.22; `Date_eq` and `unix_timeOfFields` below show
that it computes the civil calendar, as every release does.
Signed `int` division and remainder are Go's truncated ones (`Int.tdiv`,
`Int.tmod`); `uint64` values are non-negative integers, on which `/` and `%`
are the usual ones. -/

/-- Conversion to `int64`: two's-complement wrap-around. -/
def wrapInt64 (x : Int) : Int :=
  (x + 9223372036854775808) % 18446744073709551616 - 9223372036854775808

/-- Conversion to `uint64`: wrap-around modulo `2^64`. -/
def wrapUint64 (x : Int) : Int := x % 18446744073709551616

/-- Go constant `secondsPerMinute`. -/
def secondsPerMinute : Int := 60

/-- Go constant `secondsPerHour`. -/
def secondsPerHour : Int := 60 * secondsPerMinute

/-- Go constant `secondsPerDay`. -/
def secondsPerDay : Int := 24 * secondsPerHour

/-- Go constant `daysPer400Years`. -/
def daysPer400Years : Int := 365 * 400 + 97

/-- Go constant `daysPer100Years`. -/
def daysPer100Years : Int := 365 * 100 + 24

/-- Go constant `daysPer4Years`. -/
def daysPer4Years : Int := 365 * 4 + 1

/-- The year of the zero of "absolute" time, chosen by Go so that every
`int64` Unix second has a non-negative absolute second. -/
def absoluteZeroYear : Int := -292277022399

/-- The year of the zero of the internal clock. -/
def internalYear : Int := 1

/-- Go: `(absoluteZeroYear - internalYear) * 365.2425 * secondsPerDay`; the
factor `365.2425 * 86400` is the integer 31556952. -/
def absoluteToInternal : Int := (absoluteZeroYear - internalYear) * 31556952

/-- Go constant `internalToAbsolute`. -/
def internalToAbsolute : Int := -absoluteToInternal

/-- Go constant `unixToInternal`: the seconds from year 1 to 1970. -/
def unixToInternal : Int := (1969 * 365 + 1969 / 4 - 1969 / 100 + 1969 / 400) * secondsPerDay

/-- Go constant `internalToUnix`. -/
def internalToUnix : Int := -unixToInternal

/-- A Go `time.Time`: the instant (Unix seconds and nanoseconds within the
second) and the offset east of UTC, in seconds, of its location. -/
structure Time where
  unix : Int
  nsec : Int
  offset : Int
  deriving DecidableEq, Repr

/-- Go `Time.Equal`: the two times denote the same instant, whatever their
locations. -/
def Time.Equal (t u : Time) : Prop := t.unix = u.unix ∧ t.nsec = u.nsec

instance (t u : Time) : Decidable (t.Equal u) := by
  unfold Time.Equal
  exact inferInstance

/-- Go `daysBefore`: the days of a non-leap year before the end of month `m`. -/
def daysBefore : List Int := [0, 31, 31 + 28, 31 + 28 + 31, 31 + 28 + 31 + 30,
  31 + 28 + 31 + 30 + 31, 31 + 28 + 31 + 30 + 31 + 30, 31 + 28 + 31 + 30 + 31 + 30 + 31,
  31 + 28 + 31 + 30 + 31 + 30 + 31 + 31, 31 + 28 + 31 + 30 + 31 + 30 + 31 + 31 + 30,
  31 + 28 + 31 + 30 + 31 + 30 + 31 + 31 + 30 + 31,
  31 + 28 + 31 + 30 + 31 + 30 + 31 + 31 + 30 + 31 + 30,
  31 + 28 + 31 + 30 + 31 + 30 + 31 + 31 + 30 + 31 + 30 + 31]

/-- The entry `daysBefore[m]` (0 outside the table, where Go would stop). -/
def daysBeforeAt (m : Int) : Int := if m < 0 then 0 else daysBefore.getD m.toNat 0

/-- Go `isLeap`. -/
def isLeap (year : Int) : Bool :=
  year.tmod 4 == 0 && (year.tmod 100 != 0 || year.tmod 400 == 0)

/-- Go `daysIn`. -/
def daysIn (m year : Int) : Int :=
  if m == 2 && isLeap year then 29 else daysBeforeAt m - daysBeforeAt (m - 1)

/-- Go `norm`: carry `lo` into `hi` so that `0 ≤ lo < base`. -/
def norm (hi lo base : Int) : Int × Int :=
  let n1 := (-lo - 1).tdiv base + 1
  let hi1 := if lo < 0 then hi - n1 else hi
  let lo1 := if lo < 0 then lo + n1 * base else lo
  let n2 := lo1.tdiv base
  if lo1 ≥ base then (hi1 + n2, lo1 - n2 * base) else (hi1, lo1)

/-- Go `daysSinceEpoch`: days from the absolute epoch to the start of `year`. -/
def daysSinceEpoch (year : Int) : Int :=
  let y := wrapUint64 (year - absoluteZeroYear)
  let n := y / 400
  let y := y - 400 * n
  let d := daysPer400Years * n
  let n := y / 100
  let y := y - 100 * n
  let d := d + daysPer100Years * n
  let n := y / 4
  let y := y - 4 * n
  let d := d + daysPer4Years * n
  let n := y
  d + 365 * n

/-- Go `time.Date(year, month, day, hour, min, sec, nsec, time.UTC)`. -/
def Date (year month day hour min sec nsec : Int) : Time :=
  let m := month - 1
  let ym := norm year m 12
  let year := ym.1
  let month := ym.2 + 1
  let sn := norm sec nsec 1000000000
  let ms := norm min sn.1 60
  let hm := norm hour ms.1 60
  let dh := norm day hm.1 24
  let d := daysSinceEpoch year
  let d := wrapUint64 (d + daysBeforeAt (month - 1))
  let d := if isLeap year && decide (month ≥ 3) then wrapUint64 (d + 1) else d
  let d := wrapUint64 (d + (dh.1 - 1))
  let abs := wrapUint64 (d * secondsPerDay)
  let abs := wrapUint64 (abs + (dh.2 * secondsPerHour + hm.2 * secondsPerMinute + ms.2))
  let unix := wrapInt64 (wrapInt64 abs + (absoluteToInternal + internalToUnix))
  { unix := unix, nsec := sn.2, offset := 0 }

/-- Go `Time.addSec` (away from the `int64` limits, where it saturates). -/
def Time.addSec (t : Time) (d : Int) : Time := { t with unix := t.unix + d }

/-- Go `Time.abs`: the local wall clock of `t` as seconds since the absolute
epoch. -/
def Time.abs (t : Time) : Int :=
  wrapUint64 (wrapInt64 (wrapInt64 (t.unix + t.offset) + (unixToInternal + internalToAbsolute)))

/-- Go `absDate(abs, false)`: the year of an absolute second and the day within
the year, from 0. -/
def absYearDay (abs : Int) : Int × Int :=
  let d := abs / secondsPerDay
  let n := d / daysPer400Years
  let y := 400 * n
  let d := d - daysPer400Years * n
  let n := d / daysPer100Years
  let n := n - n / 4
  let y := y + 100 * n
  let d := d - daysPer100Years * n
  let n := d / daysPer4Years
  let y := y + 4 * n
  let d := d - daysPer4Years * n
  let n := d / 365
  let n := n - n / 4
  let y := y + n
  let d := d - 365 * n
  (wrapInt64 y + absoluteZeroYear, d)

/-- Go `absDate(abs, true)`: year, month and day of an absolute second. -/
def absDate (abs : Int) : Int × Int × Int :=
  let year := (absYearDay abs).1
  let day := (absYearDay abs).2
  if isLeap year && decide (day = 31 + 29 - 1) then (year, 2, 29)
  else
    let day := if isLeap year && decide (day > 31 + 29 - 1) then day - 1 else day
    let month := day.tdiv 31
    let last := daysBeforeAt (month + 1)
    let month1 := if day ≥ last then month + 1 else month
    let first := if day ≥ last then last else daysBeforeAt month
    (year, month1 + 1, day - first + 1)

/-- Go `absClock`: hour, minute and second of an absolute second. -/
def absClock (abs : Int) : Int × Int × Int :=
  let sec := abs % secondsPerDay
  let hour := sec.tdiv secondsPerHour
  let sec := sec - hour * secondsPerHour
  let min := sec.tdiv secondsPerMinute
  let sec := sec - min * secondsPerMinute
  (hour, min, sec)

/-! ## Go `time`: formatting -/

/-- The byte `'0' + u` for a decimal digit `u`. -/
def digitChar (u : Int) : Char := Char.ofNat (48 + u.toNat)

/-- Go `appendInt(b, x, width)`: the decimal form of `x`, zero-padded to
`width`, after a minus sign when `x` is negative. -/
def appendInt (x : Int) (width : Int) : GoString :=
  let u := if x < 0 then -x else x
  let sign : GoString := if x < 0 then ['-'] else []
  if width = 2 ∧ u < 100 then
    sign ++ [digitChar (u / 10), digitChar (u % 10)]
  else if width = 4 ∧ u < 10000 then
    sign ++ [digitChar (u / 100 / 10), digitChar (u / 100 % 10),
      digitChar (u % 100 / 10), digitChar (u % 100 % 10)]
  else
    let ds := Nat.toDigits 10 u.toNat
    sign ++ List.replicate (width.toNat - ds.length) '0' ++ ds

/-- Go `Time.Format(time.RFC3339)` (`appendFormatRFC3339` without
nanoseconds): `2006-01-02T15:04:05Z07:00`. -/
def formatRFC3339 (t : Time) : GoString :=
  let abs := t.abs
  let ymd := absDate abs
  let hms := absClock abs
  let b := appendInt ymd.1 4 ++ ['-'] ++ appendInt ymd.2.1 2 ++ ['-'] ++ appendInt ymd.2.2 2 ++
    ['T'] ++ appendInt hms.1 2 ++ [':'] ++ appendInt hms.2.1 2 ++ [':'] ++ appendInt hms.2.2 2
  if t.offset = 0 then b ++ ['Z']
  else
    let zone := t.offset.tdiv 60
    let sign : GoString := if zone < 0 then ['-'] else ['+']
    let zone := if zone < 0 then -zone else zone
    b ++ sign ++ appendInt (zone.tdiv 60) 2 ++ [':'] ++ appendInt (zone.tmod 60) 2

/-! ## Go `time`: parsing

`time.Parse` walks the layout chunk by chunk (`nextStdChunk`): a literal prefix
to skip, then one standard field. Failure of any kind (`errBad`, a range error,
extra text) is `none`: `parseDate` only tests `err != nil`.

Go indexes the value by bytes and the model by runes. Every byte the parser
consumes must be an ASCII letter, digit, sign or a byte of the layout, so a
value with a non-ASCII rune is rejected by both, and on ASCII values the two
indexings agree. -/

/-- Go `isDigit(s, i)`. -/
def isDigit (s : GoString) (i : Nat) : Bool :=
  match s.get? i with
  | none => false
  | some c => decide (48 ≤ c.toNat) && decide (c.toNat ≤ 57)

/-- The value `int(c - '0')` of a digit. -/
def digitVal (c : Char) : Int := (c.toNat : Int) - 48

/-- Go `getnum(s, fixed)`: one or two leading digits, exactly two when `fixed`. -/
def getnum (s : GoString) (fixed : Bool) : Option (Int × GoString) :=
  if !isDigit s 0 then none
  else if !isDigit s 1 then
    if fixed then none else some (digitVal (s.headD '0'), s.drop 1)
  else some (digitVal (s.headD '0') * 10 + digitVal (s.getD 1 '0'), s.drop 2)

/-- Go `leadingInt(s)`: the leading decimal digits of `s` and the rest; fails on
overflow of 63 bits. -/
def leadingInt : Int → GoString → Option (Int × GoString)
  | x, [] => some (x, [])
  | x, c :: cs =>
    if c.toNat < 48 ∨ c.toNat > 57 then some (x, c :: cs)
    else if x > 9223372036854775808 / 10 then none
    else
      let x1 := x * 10 + (c.toNat : Int) - 48
      if x1 > 9223372036854775808 then none else leadingInt x1 cs

/-- Go `atoi(s)`: an optionally signed decimal integer filling all of `s`. -/
def atoi (s : GoString) : Option Int :=
  let hasSign : Bool := decide (0 < s.length) && (s.headD '0' == '-' || s.headD '0' == '+')
  let neg : Bool := hasSign && s.headD '0' == '-'
  let s1 := if hasSign then s.drop 1 else s
  match leadingInt 0 s1 with
  | none => none
  | some (q, rem) =>
    if 0 < rem.length then none
    else some (if neg then wrapInt64 (-(wrapInt64 q)) else wrapInt64 q)

/-- Go `match(s1, s2)`: equality of two strings of one length up to ASCII case. -/
def matchFold : GoString → GoString → Bool
  | [], _ => true
  | _ :: _, [] => false
  | c1 :: r1, c2 :: r2 =>
    (c1 == c2 ||
      (c1.toNat ||| 32 == c2.toNat ||| 32 && decide (97 ≤ c1.toNat ||| 32) &&
        decide (c1.toNat ||| 32 ≤ 122))) && matchFold r1 r2

/-- The loop of Go `lookup`, at index `i` of the table. -/
def lookupFrom (i : Int) : List GoString → GoString → Option (Int × GoString)
  | [], _ => none
  | v :: tab, val =>
    if v.length ≤ val.length && matchFold (val.take v.length) v then
      some (i, val.drop v.length)
    else lookupFrom (i + 1) tab val

/-- Go `lookup(tab, val)`: the index of the first entry that `val` starts with,
case-insensitively, and the rest of `val`. -/
def lookup (tab : List GoString) (val : GoString) : Option (Int × GoString) :=
  lookupFrom 0 tab val

/-- Go `shortDayNames`. -/
def shortDayNames : List GoString :=
  ["Sun".toList, "Mon".toList, "Tue".toList, "Wed".toList, "Thu".toList, "Fri".toList,
    "Sat".toList]

/-- Go `shortMonthNames`. -/
def shortMonthNames : List GoString :=
  ["Jan".toList, "Feb".toList, "Mar".toList, "Apr".toList, "May".toList, "Jun".toList,
    "Jul".toList, "Aug".toList, "Sep".toList, "Oct".toList, "Nov".toList, "Dec".toList]

/-- Go `cutspace`. -/
def cutspace (s : GoString) : GoString := s.dropWhile (fun c => c == ' ')

/-- The loop of Go `skip`, bounded by the length of the prefix. -/
def skipLoop : Nat → GoString → GoString → Option GoString
  | 0, _, _ => none
  | fuel + 1, value, pre =>
    match pre with
    | [] => some value
    | p :: ps =>
      if p = ' ' then
        if 0 < value.length ∧ value.headD ' ' ≠ ' ' then none
        else skipLoop fuel (cutspace value) (cutspace ps)
      else if value.length = 0 ∨ value.headD ' ' ≠ p then none
      else skipLoop fuel (value.drop 1) ps

/-- Go `skip(value, prefix)`: remove the literal `prefix` from `value`; a run
of spaces in the prefix stands for any run of spaces (or the end of `value`). -/
def skip (value pre : GoString) : Option GoString :=
  skipLoop (pre.length + 1) value pre

/-- Go `commaOrPeriod`. -/
def commaOrPeriod (c : Char) : Bool := c == '.' || c == ','

/-- Go `parseNanoseconds(value, nbytes)`: the fraction `value[1:nbytes]`, at
most nine digits of it, scaled to nanoseconds. -/
def parseNanoseconds (value : GoString) (nbytes : Nat) : Option Int :=
  if !commaOrPeriod (value.headD ' ') then none
  else
    let value1 := if nbytes > 10 then value.take 10 else value
    let nbytes1 := if nbytes > 10 then 10 else nbytes
    match atoi ((value1.take nbytes1).drop 1) with
    | none => none
    | some ns => if ns < 0 then none else some (ns * 10 ^ (10 - nbytes1))

/-- The standard chunks (`std...` constants of format.go) found in the two
layouts used here. -/
inductive Std
  | stdWeekDay
  | stdZeroDay
  | stdMonth
  | stdZeroMonth
  | stdLongYear
  | stdHour
  | stdZeroMinute
  | stdZeroSecond
  | stdNumTZ
  | stdISO8601ColonTZ
  deriving DecidableEq, Repr

/-- The local variables of Go `parse`, with their initial values. -/
structure ParseState where
  year : Int := 0
  month : Int := -1
  day : Int := -1
  hour : Int := 0
  min : Int := 0
  sec : Int := 0
  nsec : Int := 0
  zUTC : Bool := false
  zoneOffset : Int := -1
  deriving DecidableEq, Repr

/-- The end of the time-zone cases of Go `parse`: two-digit hours and minutes
(seconds are "00"), at most 24 and 60, and a sign. The range checks are those
of recent releases (Go 1.23); earlier ones accept any two digits. Zones of at
most 23 hours 59 minutes are read alike by all. -/
def parseOffset (sign hour min : GoString) : Option Int := do
  let hr ← getnum hour true
  let mm ← getnum min true
  let ss ← getnum "00".toList true
  if hr.1 > 24 ∨ mm.1 > 60 ∨ ss.1 > 60 then none
  else
    let zoneOffset := (hr.1 * 60 + mm.1) * 60 + ss.1
    if sign = ['+'] then some zoneOffset
    else if sign = ['-'] then some (-zoneOffset)
    else none

/-- One case of the `switch std & stdMask` of Go `parse`: read the field `std`
off the front of `value`. -/
def parseStd (std : Std) (st : ParseState) (value : GoString) :
    Option (ParseState × GoString) :=
  match std with
  | .stdWeekDay => do
    -- the weekday is only checked to be a weekday name
    let r ← lookup shortDayNames value
    some (st, r.2)
  | .stdZeroDay => do
    -- any two-digit day here; the date is validated after the loop
    let r ← getnum value true
    some ({ st with day := r.1 }, r.2)
  | .stdMonth => do
    let r ← lookup shortMonthNames value
    some ({ st with month := r.1 + 1 }, r.2)
  | .stdZeroMonth => do
    let r ← getnum value true
    if r.1 ≤ 0 ∨ 12 < r.1 then none else some ({ st with month := r.1 }, r.2)
  | .stdLongYear =>
    if value.length < 4 ∨ !isDigit value 0 then none
    else do
      let y ← atoi (value.take 4)
      some ({ st with year := y }, value.drop 4)
  | .stdHour => do
    let r ← getnum value false
    if r.1 < 0 ∨ 24 ≤ r.1 then none else some ({ st with hour := r.1 }, r.2)
  | .stdZeroMinute => do
    let r ← getnum value true
    if r.1 < 0 ∨ 60 ≤ r.1 then none else some ({ st with min := r.1 }, r.2)
  | .stdZeroSecond => do
    let r ← getnum value true
    if r.1 < 0 ∨ 60 ≤ r.1 then none
    else
      let st1 := { st with sec := r.1 }
      let value1 := r.2
      -- a fractional second in the input although the layout has none
      -- (neither layout has a fractional-second chunk after the seconds)
      if 2 ≤ value1.length ∧ commaOrPeriod (value1.headD ' ') ∧ isDigit value1 1 then do
        let n := 2 + ((value1.drop 2).takeWhile (fun c => isDigit [c] 0)).length
        let ns ← parseNanoseconds value1 n
        some ({ st1 with nsec := ns }, value1.drop n)
      else some (st1, value1)
  | .stdNumTZ =>
    if value.length < 5 then none
    else do
      let off ← parseOffset (value.take 1) ((value.drop 1).take 2) ((value.drop 3).take 2)
      some ({ st with zoneOffset := off }, value.drop 5)
  | .stdISO8601ColonTZ =>
    if 1 ≤ value.length ∧ value.headD ' ' = 'Z' then
      some ({ st with zUTC := true }, value.drop 1)
    else if value.length < 6 then none
    else if value.getD 3 ' ' ≠ ':' then none
    else do
      let off ← parseOffset (value.take 1) ((value.drop 1).take 2) ((value.drop 4).take 2)
      some ({ st with zoneOffset := off }, value.drop 6)

/-- A layout cut into chunks by Go `nextStdChunk`: each standard field with the
literal text before it, and the literal text after the last field. -/
structure Layout where
  chunks : List (GoString × Std)
  tail : GoString

/-- The chunks of `time.RFC1123Z`, "Mon, 02 Jan 2006 15:04:05 -0700". -/
def layoutRFC1123Z : Layout :=
  { chunks := [("".toList, .stdWeekDay), (", ".toList, .stdZeroDay), (" ".toList, .stdMonth),
      (" ".toList, .stdLongYear), (" ".toList, .stdHour), (":".toList, .stdZeroMinute),
      (":".toList, .stdZeroSecond), (" ".toList, .stdNumTZ)],
    tail := [] }

/-- The chunks of `time.RFC3339`, "2006-01-02T15:04:05Z07:00". -/
def layoutRFC3339 : Layout :=
  { chunks := [("".toList, .stdLongYear), ("-".toList, .stdZeroMonth), ("-".toList, .stdZeroDay),
      ("T".toList, .stdHour), (":".toList, .stdZeroMinute), (":".toList, .stdZeroSecond),
      ("".toList, .stdISO8601ColonTZ)],
    tail := [] }

/-- The main loop of Go `parse` over the chunks of the layout. -/
def parseLoop : List (GoString × Std) → ParseState → GoString → Option (ParseState × GoString)
  | [], st, value => some (st, value)
  | (pre, std) :: rest, st, value => do
    let value1 ← skip value pre
    let r ← parseStd std st value1
    parseLoop rest r.1 r.2

/-- The end of Go `parse`: the date is validated and the `Time` is built, in
UTC for a "Z" zone and in a zone of the parsed offset otherwise. -/
def finishParse (st : ParseState) : Option Time :=
  let month := if st.month < 0 then 1 else st.month
  let day := if st.day < 0 then 1 else st.day
  if day < 1 ∨ day > daysIn month st.year then none
  else if st.zUTC then some (Date st.year month day st.hour st.min st.sec st.nsec)
  else if st.zoneOffset ≠ -1 then
    let t := (Date st.year month day st.hour st.min st.sec st.nsec).addSec (-st.zoneOffset)
    some { t with offset := st.zoneOffset }
  else some (Date st.year month day st.hour st.min st.sec st.nsec)

/-- Go `time.Parse(layout, value)` for a layout without a zone abbreviation,
through the layout-driven parser `parse` (for `time.RFC3339` Go first tries a
shortcut that reads the same fields at fixed positions and falls back to this
parser when the shortcut gives up). -/
def timeParse (layout : Layout) (value : GoString) : Option Time := do
  let r ← parseLoop layout.chunks {} value
  let rest ← skip r.2 layout.tail
  if rest.length ≠ 0 then none else finishParse r.1

/-! ## `main.go`: items, dates, documents -/

/-- The struct `Item` of `main.go`, as `encoding/xml` fills it. -/
structure Item where
  Title : GoString
  PubDate : GoString
  UpdateDate : GoString
  Content : GoString
  Categories : List GoString

/-- The function `parseDate` of `main.go` (the diagnostic printed on a parse error is not
part of the result). -/
def parseDate (dateStr : GoString) : GoString :=
  if dateStr = [] then []
  else
    match timeParse layoutRFC1123Z dateStr with
    | none => dateStr
    | some t => formatRFC3339 t

/-- The function `convertHTMLToMarkdown` of `main.go`; `convert` stands for
`converter.ConvertString` of the html-to-markdown library, `none` being its
error. -/
def convertHTMLToMarkdown (convert : GoString → Option GoString) (htmlContent : GoString) :
    GoString :=
  match convert htmlContent with
  | none => htmlContent
  | some md => md

/-- What Go `fmt.Sprintf` appends for operands left over after the format. -/
def sprintfExtra : List GoString → GoString
  | [] => []
  | a :: args =>
    "%!(EXTRA ".toList ++ Join ((a :: args).map (fun x => "string=".toList ++ x)) ", ".toList ++
      ")".toList

/-- Go `fmt.Sprintf(format, args...)` for string operands and plain verbs (no
flags, width, precision or argument index, none of which the program uses):
`%s` and `%v` print the next operand, `%%` a percent sign; a verb without an
operand, an operand with another verb and operands left over are rendered the
way `fmt` reports them. -/
def Sprintf : GoString → List GoString → GoString
  | [], args => sprintfExtra args
  | c :: rest, args =>
    if c ≠ '%' then c :: Sprintf rest args
    else
      match rest with
      | [] => "%!(NOVERB)".toList ++ sprintfExtra args
      | v :: rest2 =>
        if v = '%' then '%' :: Sprintf rest2 args
        else
          match args with
          | [] => "%!".toList ++ [v] ++ "(MISSING)".toList ++ Sprintf rest2 []
          | a :: args2 =>
            if v = 's' ∨ v = 'v' then a ++ Sprintf rest2 args2
            else "%!".toList ++ [v] ++ "(string=".toList ++ a ++ ")".toList ++ Sprintf rest2 args2

/-- The format string of the document in `main`. -/
def markdownFormat : GoString :=
  "---\ntitle: \"%s\"\ndate: %s\nupdated: %s\ncategories:\n\t- %s\n---\n\n%s".toList

/-- The local `pubDate` of the loop body of `main`. -/
def pubDateOf (item : Item) : GoString := parseDate item.PubDate

/-- The local `updateDate` of the loop body of `main`, after the fallback. -/
def updateDateOf (item : Item) : GoString :=
  let updateDate := parseDate item.UpdateDate
  if updateDate = [] then pubDateOf item else updateDate

/-- The local `categories` of the loop body of `main`. -/
def categoriesOf (item : Item) : GoString := Join item.Categories "\n\t- ".toList

/-- The document `main` assembles for an item, given its rendered body. -/
def assemble (item : Item) (body : GoString) : GoString :=
  Sprintf markdownFormat [item.Title, pubDateOf item, updateDateOf item, categoriesOf item, body]

/-- The local `markdownContent` of the loop body of `main`. -/
def markdownContent (convert : GoString → Option GoString) (item : Item) : GoString :=
  assemble item (convertHTMLToMarkdown convert item.Content)

/-! ## `main.go`: the output directory -/

/-- The output directory: its files, as pairs of a path and a content, no path
twice. -/
abbrev Dir := List (GoString × GoString)

/-- The content of the file at `path`, if there is one. -/
def Dir.read (d : Dir) (path : GoString) : Option GoString :=
  (d.find? (fun e => e.1 = path)).map (fun e => e.2)

/-- The directory after the file at `path` has been created or replaced. -/
def Dir.put (d : Dir) (path content : GoString) : Dir :=
  (path, content) :: d.filter (fun e => e.1 ≠ path)

/-- How one call of `os.WriteFile` ends: all data written; the file could not
be opened (nothing changes); or the file was created or truncated and the write
stopped after `n` runes. The last two return an error. -/
inductive WriteOutcome
  | ok
  | notOpened
  | stopped (n : Nat)
  deriving DecidableEq, Repr

/-- Go `os.WriteFile(path, data, 0644)` on the modelled directory. -/
def writeFile (o : WriteOutcome) (d : Dir) (path data : GoString) : Dir :=
  match o with
  | .ok => d.put path data
  | .notOpened => d
  | .stopped n => d.put path (data.take n)

/-- The constant `outputDir` of `main`. -/
def outputDir : GoString := "output".toList

/-- Go `filepath.Join(outputDir, fileName)`: the two joined by a separator (the
path is already clean: the file name has no separator and no dot but the one of
its extension). -/
def filePathOf (title : GoString) : GoString :=
  outputDir ++ "/".toList ++ fileNameOf title

/-- The loop `for _, item := range rss.Channel.Items` of `main`, from item
number `i` on; `outcome k` is how the write of item number `k` ends. An error
is printed and the loop goes on. -/
def processItems (convert : GoString → Option GoString) (outcome : Nat → WriteOutcome) :
    Nat → List Item → Dir → Dir
  | _, [], d => d
  | i, item :: rest, d =>
    processItems convert outcome (i + 1) rest
      (writeFile (outcome i) d (filePathOf item.Title) (markdownContent convert item))

/-- The function `main` of `main.go` from the parsed feed on: the loop over
`rss.Channel.Items`, from a given state of the output directory. The steps
before it (creating the directory, reading and decoding the feed) return
before any item is processed when they fail. -/
def main (convert : GoString → Option GoString) (outcome : Nat → WriteOutcome)
    (items : List Item) (d : Dir) : Dir :=
  processItems convert outcome 0 items d

/-! ## Specification-side definitions -/

/-- A character the specification lets through file-name derivation: an ASCII
letter, an ASCII digit, underscore, hyphen or space. -/
def isPermitted (c : Char) : Bool :=
  (decide (65 ≤ c.toNat) && decide (c.toNat ≤ 90)) ||
  (decide (97 ≤ c.toNat) && decide (c.toNat ≤ 122)) ||
  (decide (48 ≤ c.toNat) && decide (c.toNat ≤ 57)) ||
  c == '_' || c == '-' || c == ' '

/-- A character of the class `[A-Za-z0-9_-]`. -/
def isFileNameChar (c : Char) : Bool :=
  (decide (65 ≤ c.toNat) && decide (c.toNat ≤ 90)) ||
  (decide (97 ≤ c.toNat) && decide (c.toNat ≤ 122)) ||
  (decide (48 ≤ c.toNat) && decide (c.toNat ≤ 57)) ||
  c == '_' || c == '-'

/-- The replacement of a space by an underscore, on one character. -/
def spaceToUnderscore (c : Char) : Char := if c = ' ' then '_' else c

/-- File-name derivation in the words of the specification: delete every
character that is not permitted, then turn every space into an underscore. -/
def sanitizeSpec (t : GoString) : GoString :=
  (t.filter isPermitted).map spaceToUnderscore


/-- The lines of a text: the pieces ended by a line feed, and what follows the
last line feed when that is not empty. -/
def linesFrom : GoString → GoString → List GoString
  | cur, [] => if cur = [] then [] else [cur]
  | cur, c :: cs => if c = '\n' then cur :: linesFrom [] cs else linesFrom (cur ++ [c]) cs

/-- The lines of a text. -/
def linesOf (s : GoString) : List GoString := linesFrom [] s

/-- The header of a document down to the line of the update date. -/
def headerTop (item : Item) : GoString :=
  "---\n".toList ++ ("title: \"".toList ++ item.Title ++ "\"\n".toList) ++
    ("date: ".toList ++ pubDateOf item ++ "\n".toList) ++
    ("updated: ".toList ++ updateDateOf item ++ "\n".toList)

/-- The part of a document between the line "categories:" and the closing
"---" line. -/
def categoryBlock (item : Item) : GoString :=
  "\t- ".toList ++ categoriesOf item ++ "\n".toList

/-- The bullet line of a category label: a tab, "- " and the label. -/
def bulletLine (label : GoString) : GoString := "\t- ".toList ++ label

/-- The number of files of the directory at `path`. -/
def Dir.count (d : Dir) (path : GoString) : Nat :=
  (d.filter (fun e => e.1 = path)).length

/-- The day within the year, from 0, that `Date` computes for a month and a
day of the month. -/
def ydayOf (year month day : Int) : Int :=
  daysBeforeAt (month - 1) + (if isLeap year && decide (month ≥ 3) then 1 else 0) + (day - 1)

/-- The absolute second that `Date` computes for in-range fields. -/
def absOf (st : ParseState) : Int :=
  (daysSinceEpoch st.year + ydayOf st.year st.month st.day) * 86400 +
    (st.hour * 3600 + st.min * 60 + st.sec)

/-- The offset between absolute seconds and Unix seconds,
`unixToInternal + internalToAbsolute`. -/
def unixToAbsolute : Int := 9223372028715321600

/-- The fields of a parse state are those of a date and a time of day of a
four-digit year. -/
def FieldsOk (st : ParseState) : Prop :=
  0 ≤ st.year ∧ st.year ≤ 9999 ∧ 1 ≤ st.month ∧ st.month ≤ 12 ∧
  1 ≤ st.day ∧ st.day ≤ daysIn st.month st.year ∧
  0 ≤ st.hour ∧ st.hour < 24 ∧ 0 ≤ st.min ∧ st.min < 60 ∧ 0 ≤ st.sec ∧ st.sec < 60 ∧
  0 ≤ st.nsec ∧ st.nsec < 1000000000

/-- The time `parse` builds from in-range fields and a zone offset: the instant
is the wall clock of the fields moved back by the offset. -/
def timeOfFields (st : ParseState) (zone : Int) : Time :=
  { unix := absOf st - unixToAbsolute - zone, nsec := st.nsec, offset := zone }

/-- The two decimal digits of a number below 100. -/
def twoDigits (n : Int) : GoString := [digitChar (n / 10), digitChar (n % 10)]

/-- The four decimal digits of a number below 10000. -/
def fourDigits (n : Int) : GoString :=
  [digitChar (n / 100 / 10), digitChar (n / 100 % 10), digitChar (n % 100 / 10),
    digitChar (n % 100 % 10)]

/-- The zone designator of RFC 3339 for an offset in seconds: "Z" for zero,
otherwise a sign, the hours and the minutes. -/
def zoneRFC3339 (zone : Int) : GoString :=
  if zone = 0 then ['Z']
  else if zone < 0 then ['-'] ++ twoDigits (-zone / 60 / 60) ++ [':'] ++ twoDigits (-zone / 60 % 60)
  else ['+'] ++ twoDigits (zone / 60 / 60) ++ [':'] ++ twoDigits (zone / 60 % 60)

/-- The RFC 3339 text of in-range fields and a zone offset. -/
def renderRFC3339 (st : ParseState) (zone : Int) : GoString :=
  fourDigits st.year ++ ['-'] ++ twoDigits st.month ++ ['-'] ++ twoDigits st.day ++ ['T'] ++
    twoDigits st.hour ++ [':'] ++ twoDigits st.min ++ [':'] ++ twoDigits st.sec ++
    zoneRFC3339 zone

/-! ## The source timestamp format -/

/-- A timestamp of the source format, RFC 1123 with a numeric zone,
`Www, DD Mon YYYY HH:MM:SS ±hhmm`, by its fields: the weekday as an index into
the day names, the date, the time of day, and the zone as a direction and an
hour and minute count. -/
structure SourceStamp where
  weekday : Nat
  day : Int
  month : Int
  year : Int
  hour : Int
  min : Int
  sec : Int
  east : Bool
  zoneHour : Int
  zoneMin : Int
  deriving DecidableEq, Repr

/-- Leap years of the Gregorian calendar. -/
def isLeapYear (y : Int) : Bool := decide (y % 4 = 0 ∧ (y % 100 ≠ 0 ∨ y % 400 = 0))

/-- The number of days of month `m` of year `y`. -/
def monthLength (y m : Int) : Int :=
  if m = 2 then (if isLeapYear y then 29 else 28)
  else if m = 4 ∨ m = 6 ∨ m = 9 ∨ m = 11 then 30
  else 31

/-- The fields are those of a timestamp: a weekday name, a date of the calendar
in a four-digit year, a time of day, and a zone of at most 23 hours and 59
minutes. -/
def SourceStamp.Valid (p : SourceStamp) : Prop :=
  p.weekday < 7 ∧ 0 ≤ p.year ∧ p.year ≤ 9999 ∧ 1 ≤ p.month ∧ p.month ≤ 12 ∧
  1 ≤ p.day ∧ p.day ≤ monthLength p.year p.month ∧
  0 ≤ p.hour ∧ p.hour ≤ 23 ∧ 0 ≤ p.min ∧ p.min ≤ 59 ∧ 0 ≤ p.sec ∧ p.sec ≤ 59 ∧
  0 ≤ p.zoneHour ∧ p.zoneHour ≤ 23 ∧ 0 ≤ p.zoneMin ∧ p.zoneMin ≤ 59

instance (p : SourceStamp) : Decidable p.Valid := by
  unfold SourceStamp.Valid
  exact inferInstance

/-- The text of a timestamp in the source format. -/
def SourceStamp.text (p : SourceStamp) : GoString :=
  shortDayNames.getD p.weekday [] ++ [',', ' '] ++ twoDigits p.day ++ [' '] ++
    shortMonthNames.getD (p.month - 1).toNat [] ++ [' '] ++ fourDigits p.year ++ [' '] ++
    twoDigits p.hour ++ [':'] ++ twoDigits p.min ++ [':'] ++ twoDigits p.sec ++ [' '] ++
    [if p.east then '+' else '-'] ++ twoDigits p.zoneHour ++ twoDigits p.zoneMin

/-- A string is a valid timestamp of the source format. -/
def IsSourceStamp (s : GoString) : Prop := ∃ p : SourceStamp, p.Valid ∧ s = p.text

/-- The zone of a timestamp, in seconds east of UTC. -/
def SourceStamp.zone (p : SourceStamp) : Int :=
  if p.east then (p.zoneHour * 60 + p.zoneMin) * 60 else -((p.zoneHour * 60 + p.zoneMin) * 60)

/-- The days from 1 January of year 0 to 1 January of year `y`, for `y ≥ 0`:
365 a year and one more for each leap year before `y`. -/
def daysBeforeYear (y : Int) : Int :=
  365 * y + (y + 3) / 4 - (y + 99) / 100 + (y + 399) / 400

/-- The days of year `y` before its month `m`. -/
def daysBeforeMonth (y m : Int) : Int :=
  ((List.range (m - 1).toNat).map (fun k => monthLength y ((k : Int) + 1))).sum

/-- The instant a timestamp denotes, in seconds since 1 January 1970 UTC
(day 719528 from 1 January of year 0): its wall clock on the calendar, moved
back by its zone. -/
def SourceStamp.unix (p : SourceStamp) : Int :=
  (daysBeforeYear p.year + daysBeforeMonth p.year p.month + (p.day - 1) - 719528) * 86400 +
    (p.hour * 3600 + p.min * 60 + p.sec) - p.zone

/-- The date and time fields of a timestamp as the parser holds them. -/
def SourceStamp.fields (p : SourceStamp) : ParseState :=
  { year := p.year, month := p.month, day := p.day, hour := p.hour, min := p.min,
    sec := p.sec, nsec := 0, zUTC := false, zoneOffset := p.zone }

/-- The canonical (RFC 3339) text of a timestamp, `YYYY-MM-DDTHH:MM:SS±hh:mm`,
with "Z" for a zero zone. -/
def SourceStamp.canonical (p : SourceStamp) : GoString :=
  renderRFC3339 p.fields p.zone

/-! ## Lemmas on strings -/

theorem toNat_inj {c d : Char} (h : c.toNat = d.toNat) : c = d := by
  rw [← Char.ofNat_toNat c, ← Char.ofNat_toNat d, h]

theorem runeOf_inj {c d : Char} : runeOf c = runeOf d ↔ c = d := by
  constructor
  · intro h
    apply toNat_inj
    simpa [runeOf] using h
  · intro h
    rw [h]

theorem writeRune_runeOf (c : Char) : writeRune (runeOf c) = c := by
  have hv : c.toNat.isValidChar := c.valid
  simp only [writeRune, runeOf, Int.toNat_ofNat, hv, if_true, Char.ofNat_toNat]

theorem allowed_toNat :
    allowedRunes.map Char.toNat =
      (List.range 26).map (· + 97) ++ (List.range 26).map (· + 65) ++
        (List.range 10).map (· + 48) ++ [95, 45] := by
  decide

theorem containsRune_allowed (c : Char) :
    ContainsRune allowedRunes (runeOf c) = true ↔
      (65 ≤ c.toNat ∧ c.toNat ≤ 90) ∨ (97 ≤ c.toNat ∧ c.toNat ≤ 122) ∨
        (48 ≤ c.toNat ∧ c.toNat ≤ 57) ∨ c.toNat = 95 ∨ c.toNat = 45 := by
  have h1 : ContainsRune allowedRunes (runeOf c) = true ↔
      c.toNat ∈ allowedRunes.map Char.toNat := by
    simp only [ContainsRune, List.any_eq_true, List.mem_map, beq_iff_eq, runeOf]
    constructor
    · rintro ⟨d, hd, he⟩
      exact ⟨d, hd, by exact_mod_cast he⟩
    · rintro ⟨d, hd, he⟩
      exact ⟨d, hd, by exact_mod_cast he⟩
  rw [h1, allowed_toNat]
  simp only [List.mem_append, List.mem_map, List.mem_range, List.mem_cons, List.mem_singleton,
    List.not_mem_nil, or_false]
  constructor
  · rintro (((⟨a, ha, he⟩ | ⟨a, ha, he⟩) | ⟨a, ha, he⟩) | h | h) <;> omega
  · rintro (h | h | h | h | h)
    · exact Or.inl (Or.inl (Or.inr ⟨c.toNat - 65, by omega, by omega⟩))
    · exact Or.inl (Or.inl (Or.inl ⟨c.toNat - 97, by omega, by omega⟩))
    · exact Or.inl (Or.inr ⟨c.toNat - 48, by omega, by omega⟩)
    · exact Or.inr (Or.inl h)
    · exact Or.inr (Or.inr h)

theorem char_eq_iff_toNat (c d : Char) : c = d ↔ c.toNat = d.toNat :=
  ⟨fun h => by rw [h], toNat_inj⟩

theorem sanitizeRune_runeOf (c : Char) :
    sanitizeRune (runeOf c) = if isPermitted c then runeOf c else -1 := by
  have hc := containsRune_allowed c
  have hu : (c = '_') ↔ c.toNat = 95 := char_eq_iff_toNat c '_'
  have hh : (c = '-') ↔ c.toNat = 45 := char_eq_iff_toNat c '-'
  have hs : (c = ' ') ↔ c.toNat = 32 := char_eq_iff_toNat c ' '
  have hr : (runeOf c == runeOf ' ') = true ↔ c.toNat = 32 := by
    rw [beq_iff_eq, runeOf_inj, hs]
  have hp : isPermitted c = true ↔
      ((65 ≤ c.toNat ∧ c.toNat ≤ 90) ∨ (97 ≤ c.toNat ∧ c.toNat ≤ 122) ∨
        (48 ≤ c.toNat ∧ c.toNat ≤ 57) ∨ c.toNat = 95 ∨ c.toNat = 45) ∨ c.toNat = 32 := by
    unfold isPermitted
    rw [Bool.or_eq_true, Bool.or_eq_true, Bool.or_eq_true, Bool.or_eq_true, Bool.or_eq_true,
      Bool.and_eq_true, Bool.and_eq_true, Bool.and_eq_true, beq_iff_eq, beq_iff_eq, beq_iff_eq,
      hu, hh, hs]
    simp only [decide_eq_true_eq]
    constructor
    · rintro (((((h | h) | h) | h) | h) | h)
      · exact Or.inl (Or.inl h)
      · exact Or.inl (Or.inr (Or.inl h))
      · exact Or.inl (Or.inr (Or.inr (Or.inl h)))
      · exact Or.inl (Or.inr (Or.inr (Or.inr (Or.inl h))))
      · exact Or.inl (Or.inr (Or.inr (Or.inr (Or.inr h))))
      · exact Or.inr h
    · rintro ((h | h | h | h | h) | h)
      · exact Or.inl (Or.inl (Or.inl (Or.inl (Or.inl h))))
      · exact Or.inl (Or.inl (Or.inl (Or.inl (Or.inr h))))
      · exact Or.inl (Or.inl (Or.inl (Or.inr h)))
      · exact Or.inl (Or.inl (Or.inr h))
      · exact Or.inl (Or.inr h)
      · exact Or.inr h
  unfold sanitizeRune
  by_cases hperm : isPermitted c = true
  · have : (ContainsRune allowedRunes (runeOf c) || runeOf c == runeOf ' ') = true := by
      rw [Bool.or_eq_true, hc, hr]
      exact hp.mp hperm
    rw [if_pos this, if_pos hperm]
  · have : ¬ (ContainsRune allowedRunes (runeOf c) || runeOf c == runeOf ' ') = true := by
      rw [Bool.or_eq_true, hc, hr]
      exact fun h => hperm (hp.mpr h)
    rw [if_neg this, if_neg hperm]

theorem Map_sanitizeRune (t : GoString) : Map sanitizeRune t = t.filter isPermitted := by
  induction t with
  | nil => rfl
  | cons c cs ih =>
    simp only [Map, sanitizeRune_runeOf, List.filter_cons]
    by_cases hperm : isPermitted c = true
    · have h0 : (0 : Int) ≤ runeOf c := by simp [runeOf]
      simp only [hperm, if_true, h0, writeRune_runeOf, ih]
    · simp only [hperm, ih]
      simp

theorem replaceFrom_space (s : GoString) :
    replaceFrom [' '] ['_'] 0 s = s.map spaceToUnderscore := by
  induction s with
  | nil => rfl
  | cons c cs ih =>
    by_cases hc : c = ' '
    · subst hc
      simp [replaceFrom, spaceToUnderscore, ih, List.isPrefixOf]
    · have hc2 : ¬ ' ' = c := fun h => hc h.symm
      simp [replaceFrom, spaceToUnderscore, ih, List.isPrefixOf, hc, hc2]

theorem SanitizeFileName_eq_spec (t : GoString) : SanitizeFileName t = sanitizeSpec t := by
  have hne : ¬ (" ".toList = "_".toList) := by decide
  have hnil : ¬ (" ".toList = ([] : List Char)) := by decide
  have h1 : " ".toList = [' '] := rfl
  have h2 : "_".toList = ['_'] := rfl
  simp only [SanitizeFileName, ReplaceAll, if_neg hne, if_neg hnil, Map_sanitizeRune,
    sanitizeSpec]
  rw [h1, h2, replaceFrom_space]

theorem isFileNameChar_iff (c : Char) :
    isFileNameChar c = true ↔
      (65 ≤ c.toNat ∧ c.toNat ≤ 90) ∨ (97 ≤ c.toNat ∧ c.toNat ≤ 122) ∨
        (48 ≤ c.toNat ∧ c.toNat ≤ 57) ∨ c.toNat = 95 ∨ c.toNat = 45 := by
  have hu : (c = '_') ↔ c.toNat = 95 := char_eq_iff_toNat c '_'
  have hh : (c = '-') ↔ c.toNat = 45 := char_eq_iff_toNat c '-'
  unfold isFileNameChar
  rw [Bool.or_eq_true, Bool.or_eq_true, Bool.or_eq_true, Bool.or_eq_true,
    Bool.and_eq_true, Bool.and_eq_true, Bool.and_eq_true, beq_iff_eq, beq_iff_eq, hu, hh]
  simp only [decide_eq_true_eq]
  constructor
  · rintro ((((h | h) | h) | h) | h)
    · exact Or.inl h
    · exact Or.inr (Or.inl h)
    · exact Or.inr (Or.inr (Or.inl h))
    · exact Or.inr (Or.inr (Or.inr (Or.inl h)))
    · exact Or.inr (Or.inr (Or.inr (Or.inr h)))
  · rintro (h | h | h | h | h)
    · exact Or.inl (Or.inl (Or.inl (Or.inl h)))
    · exact Or.inl (Or.inl (Or.inl (Or.inr h)))
    · exact Or.inl (Or.inl (Or.inr h))
    · exact Or.inl (Or.inr h)
    · exact Or.inr h

theorem isPermitted_iff (c : Char) :
    isPermitted c = true ↔ isFileNameChar c = true ∨ c = ' ' := by
  unfold isPermitted isFileNameChar
  rw [Bool.or_eq_true (b := c == ' '), beq_iff_eq]

theorem isFileNameChar_ne_space {c : Char} (h : isFileNameChar c = true) : c ≠ ' ' := by
  intro hc
  subst hc
  revert h
  decide

theorem isFileNameChar_spaceToUnderscore {c : Char} (h : isPermitted c = true) :
    isFileNameChar (spaceToUnderscore c) = true := by
  unfold spaceToUnderscore
  rcases (isPermitted_iff c).mp h with h1 | h1
  · rw [if_neg (isFileNameChar_ne_space h1)]
    exact h1
  · rw [if_pos h1]
    decide

theorem isFileNameChar_of_mem_spec {t : GoString} {c : Char} (h : c ∈ sanitizeSpec t) :
    isFileNameChar c = true := by
  simp only [sanitizeSpec, List.mem_map, List.mem_filter] at h
  obtain ⟨d, ⟨_, hd⟩, rfl⟩ := h
  exact isFileNameChar_spaceToUnderscore hd

theorem sanitizeSpec_fixed {s : GoString} (h : ∀ c ∈ s, isFileNameChar c = true) :
    sanitizeSpec s = s := by
  induction s with
  | nil => rfl
  | cons c cs ih =>
    have hc : isFileNameChar c = true := h c (List.mem_cons_self _ _)
    have hp : isPermitted c = true := (isPermitted_iff c).mpr (Or.inl hc)
    have hs : spaceToUnderscore c = c := by
      unfold spaceToUnderscore
      rw [if_neg (isFileNameChar_ne_space hc)]
    have ih2 := ih (fun d hd => h d (List.mem_cons_of_mem _ hd))
    simp only [sanitizeSpec] at ih2 ⊢
    rw [List.filter_cons_of_pos hp, List.map_cons, hs, ih2]

/-! ## File-name derivation: main results -/

/-- Claim C1. For every title, the output file name is `SanitizeFileName` of the
title followed by ".md"; `SanitizeFileName` deletes every character that is not
an ASCII letter, ASCII digit, underscore, hyphen or space (order kept) and then
turns spaces into underscores; the result only has characters of `[A-Za-z0-9_-]`
(all ASCII, no slash, backslash or dot); a title without permitted characters gives
".md"; and "Hello, World! 2024" gives "Hello_World_2024.md". -/
theorem fileName_derivation (t : GoString) :
    fileNameOf t = SanitizeFileName t ++ ".md".toList ∧
    SanitizeFileName t = (t.filter isPermitted).map spaceToUnderscore ∧
    (∀ c ∈ SanitizeFileName t,
      isFileNameChar c = true ∧ c.toNat < 128 ∧ c ≠ '/' ∧ c ≠ '.' ∧ c ≠ '\\' ∧ c ≠ ' ') ∧
    ((∀ c ∈ t, isPermitted c = false) → fileNameOf t = ".md".toList) ∧
    fileNameOf "Hello, World! 2024".toList = "Hello_World_2024.md".toList := by
  refine ⟨rfl, SanitizeFileName_eq_spec t, ?_, ?_, by decide⟩
  · intro c hc
    rw [SanitizeFileName_eq_spec] at hc
    have h := isFileNameChar_of_mem_spec hc
    have hascii : c.toNat < 128 := by
      have := (isFileNameChar_iff c).mp h
      omega
    refine ⟨h, hascii, ?_, ?_, ?_, isFileNameChar_ne_space h⟩
    all_goals
      intro he
      subst he
      revert h
      decide
  · intro h
    have hf : t.filter isPermitted = [] := by
      rw [List.filter_eq_nil_iff]
      intro c hc
      rw [h c hc]
      decide
    rw [fileNameOf, SanitizeFileName_eq_spec, sanitizeSpec, hf]
    rfl

/-- A title made only of forbidden characters (punctuation and a non-ASCII
letter) yields the bare extension. -/
theorem fileName_derivation_witness :
    fileNameOf "¡Olé!?".toList = "Ol.md".toList ∧ fileNameOf "é/?".toList = ".md".toList :=
  ⟨by decide, (fileName_derivation "é/?".toList).2.2.2.1 (by decide)⟩

/-- Claim C10. File-name derivation is idempotent: sanitizing an already
sanitized name gives the same name. -/
theorem SanitizeFileName_idempotent (s : GoString) :
    SanitizeFileName (SanitizeFileName s) = SanitizeFileName s := by
  rw [SanitizeFileName_eq_spec (SanitizeFileName s), SanitizeFileName_eq_spec s]
  exact sanitizeSpec_fixed (fun c hc => isFileNameChar_of_mem_spec hc)

/-! ## Calendar arithmetic -/

theorem isLeap_nonneg (y : Int) (h : 0 ≤ y) :
    isLeap y = decide (y % 4 = 0 ∧ (y % 100 ≠ 0 ∨ y % 400 = 0)) := by
  unfold isLeap
  rw [Int.tmod_eq_emod h (by decide), Int.tmod_eq_emod h (by decide),
    Int.tmod_eq_emod h (by decide)]
  by_cases h4 : y % 4 = 0 <;> by_cases h100 : y % 100 = 0 <;> by_cases h400 : y % 400 = 0 <;>
    simp [h4, h100, h400]

theorem daysSinceEpoch_bounds (y : Int) (h0 : 0 ≤ y) (h1 : y ≤ 9999) :
    106751990353566 ≤ daysSinceEpoch y ∧ daysSinceEpoch y ≤ 106751994005626 := by
  simp only [daysSinceEpoch, wrapUint64, absoluteZeroYear, daysPer400Years, daysPer100Years,
    daysPer4Years]
  omega

theorem daysSinceEpoch_eq (y : Int) (h0 : 0 ≤ y) (h1 : y ≤ 9999) :
    ∃ a b c e : Int, 0 ≤ a ∧ 0 ≤ b ∧ b ≤ 3 ∧ 0 ≤ c ∧ c ≤ 24 ∧ 0 ≤ e ∧ e ≤ 3 ∧
      y + 292277022399 = 400 * a + 100 * b + 4 * c + e ∧
      daysSinceEpoch y = 146097 * a + 36524 * b + 1461 * c + 365 * e := by
  refine ⟨(y + 292277022399) / 400, (y + 292277022399) % 400 / 100,
    (y + 292277022399) % 100 / 4, (y + 292277022399) % 4, ?_⟩
  simp only [daysSinceEpoch, wrapUint64, absoluteZeroYear, daysPer400Years, daysPer100Years,
    daysPer4Years]
  omega

theorem absYearDay_eq (y yd secs : Int) (h0 : 0 ≤ y) (h1 : y ≤ 9999) (hyd0 : 0 ≤ yd)
    (hyd : yd ≤ 364 ∨ (yd = 365 ∧ y % 4 = 0 ∧ (y % 100 ≠ 0 ∨ y % 400 = 0)))
    (hs0 : 0 ≤ secs) (hs : secs < 86400) :
    absYearDay ((daysSinceEpoch y + yd) * 86400 + secs) = (y, yd) := by
  obtain ⟨a, b, c, e, ha, hb0, hb, hc0, hc, he0, he, hY, hdse⟩ := daysSinceEpoch_eq y h0 h1
  have hyd2 : yd ≤ 364 ∨ (yd = 365 ∧ e = 3 ∧ (c ≠ 24 ∨ b = 3)) := by omega
  have hdiv : ((daysSinceEpoch y + yd) * 86400 + secs) / secondsPerDay =
      146097 * a + 36524 * b + 1461 * c + 365 * e + yd := by
    simp only [secondsPerDay, secondsPerHour, secondsPerMinute]
    omega
  simp only [absYearDay, hdiv, daysPer400Years, daysPer100Years, daysPer4Years]
  have hn1 : (146097 * a + 36524 * b + 1461 * c + 365 * e + yd) / (365 * 400 + 97) = a := by omega
  simp only [hn1]
  generalize hd1 : 146097 * a + 36524 * b + 1461 * c + 365 * e + yd - (365 * 400 + 97) * a = d1
  have hd1v : d1 = 36524 * b + 1461 * c + 365 * e + yd := by omega
  have hq2 : d1 / (365 * 100 + 24) = b ∨ (d1 / (365 * 100 + 24) = 4 ∧ b = 3) := by
    rcases hyd2 with h | ⟨h, h', h'' | h''⟩ <;> omega
  generalize hn2 : d1 / (365 * 100 + 24) - d1 / (365 * 100 + 24) / 4 = n2
  have hn2v : n2 = b := by
    rcases hq2 with h | ⟨h, h'⟩ <;> rw [h] at hn2 <;> omega
  subst hn2v
  generalize hd2 : d1 - (365 * 100 + 24) * n2 = d2
  have hd2v : d2 = 1461 * c + 365 * e + yd := by omega
  generalize hn3 : d2 / (365 * 4 + 1) = n3
  have hn3v : n3 = c := by omega
  subst hn3v
  generalize hd3 : d2 - (365 * 4 + 1) * n3 = d3
  have hd3v : d3 = 365 * e + yd := by omega
  have hq4 : d3 / 365 = e ∨ (d3 / 365 = 4 ∧ e = 3) := by
    rcases hyd2 with h | ⟨h, h', h''⟩ <;> omega
  generalize hn4 : d3 / 365 - d3 / 365 / 4 = n4
  have hn4v : n4 = e := by
    rcases hq4 with h | ⟨h, h'⟩ <;> rw [h] at hn4 <;> omega
  subst hn4v
  simp only [wrapInt64, absoluteZeroYear, Prod.mk.injEq]
  constructor
  · omega
  · omega


theorem daysBeforeAt_vals :
    daysBeforeAt 0 = 0 ∧ daysBeforeAt 1 = 31 ∧ daysBeforeAt 2 = 59 ∧ daysBeforeAt 3 = 90 ∧
    daysBeforeAt 4 = 120 ∧ daysBeforeAt 5 = 151 ∧ daysBeforeAt 6 = 181 ∧ daysBeforeAt 7 = 212 ∧
    daysBeforeAt 8 = 243 ∧ daysBeforeAt 9 = 273 ∧ daysBeforeAt 10 = 304 ∧
    daysBeforeAt 11 = 334 ∧ daysBeforeAt 12 = 365 := by
  decide

theorem month_core (m d : Int) (hm0 : 1 ≤ m) (hm1 : m ≤ 12) (hd0 : 1 ≤ d)
    (hd1 : d ≤ daysBeforeAt m - daysBeforeAt (m - 1)) :
    (if daysBeforeAt (m - 1) + (d - 1) ≥
          daysBeforeAt ((daysBeforeAt (m - 1) + (d - 1)).tdiv 31 + 1) then
        (daysBeforeAt (m - 1) + (d - 1)).tdiv 31 + 1
      else (daysBeforeAt (m - 1) + (d - 1)).tdiv 31) + 1 = m ∧
    daysBeforeAt (m - 1) + (d - 1) -
      (if daysBeforeAt (m - 1) + (d - 1) ≥
          daysBeforeAt ((daysBeforeAt (m - 1) + (d - 1)).tdiv 31 + 1) then
        daysBeforeAt ((daysBeforeAt (m - 1) + (d - 1)).tdiv 31 + 1)
      else daysBeforeAt ((daysBeforeAt (m - 1) + (d - 1)).tdiv 31)) + 1 = d := by
  obtain ⟨v0, v1, v2, v3, v4, v5, v6, v7, v8, v9, v10, v11, v12⟩ := daysBeforeAt_vals
  have hnn : 0 ≤ daysBeforeAt (m - 1) + (d - 1) := by
    interval_cases m <;> simp only [Int.reduceSub, v0, v1, v2, v3, v4, v5, v6, v7, v8, v9, v10, v11] <;> omega
  rw [Int.tdiv_eq_ediv hnn (by decide)]
  obtain ⟨q, hq⟩ : ∃ q, (daysBeforeAt (m - 1) + (d - 1)) / 31 = q := ⟨_, rfl⟩
  rw [hq]
  have hq3 : q = m - 2 ∨ q = m - 1 := by
    interval_cases m <;>
      simp only [Int.reduceSub, v0, v1, v2, v3, v4, v5, v6, v7, v8, v9, v10, v11, v12]
        at hq hd1 <;> omega
  rcases hq3 with hq3 | hq3 <;> subst hq3 <;> interval_cases m <;>
    simp only [Int.reduceSub, Int.reduceAdd, v0, v1, v2, v3, v4, v5, v6, v7, v8, v9, v10, v11,
      v12] at hq hd1 ⊢ <;>
    (try split_ifs) <;> omega


theorem absDate_eq (y m d secs : Int) (h0 : 0 ≤ y) (h1 : y ≤ 9999) (hm0 : 1 ≤ m) (hm1 : m ≤ 12)
    (hd0 : 1 ≤ d) (hd1 : d ≤ daysIn m y) (hs0 : 0 ≤ secs) (hs : secs < 86400) :
    absDate ((daysSinceEpoch y + ydayOf y m d) * 86400 + secs) = (y, m, d) := by
  obtain ⟨v0, v1, v2, v3, v4, v5, v6, v7, v8, v9, v10, v11, v12⟩ := daysBeforeAt_vals
  have hL := isLeap_nonneg y h0
  have hnd : 0 ≤ daysBeforeAt (m - 1) ∧ daysBeforeAt m ≤ 365 ∧
      (3 ≤ m → 59 ≤ daysBeforeAt (m - 1)) ∧ (m = 2 → daysBeforeAt (m - 1) = 31) ∧
      (m = 2 → daysBeforeAt m = 59) ∧
      (m = 1 → daysBeforeAt (m - 1) = 0) ∧ (m = 1 → daysBeforeAt m = 31) := by
    interval_cases m <;>
      norm_num [v0, v1, v2, v3, v4, v5, v6, v7, v8, v9, v10, v11, v12]
  obtain ⟨hnd0, hnd1, hnd3, hnd2a, hnd2b, hnd1a, hnd1b⟩ := hnd
  cases hleap : isLeap y with
  | false =>
    have hcond : ¬ (y % 4 = 0 ∧ (y % 100 ≠ 0 ∨ y % 400 = 0)) := by
      rw [hleap] at hL
      simpa using hL.symm
    have hdin : d ≤ daysBeforeAt m - daysBeforeAt (m - 1) := by
      simpa [daysIn, hleap] using hd1
    have hyd : ydayOf y m d = daysBeforeAt (m - 1) + (d - 1) := by
      simp [ydayOf, hleap]
    have hyear := absYearDay_eq y (ydayOf y m d) secs h0 h1 (by rw [hyd]; omega)
      (Or.inl (by rw [hyd]; omega)) hs0 hs
    have hcore := month_core m d hm0 hm1 hd0 hdin
    rw [hyd] at hyear ⊢
    simp only [absDate, hyear, hleap, Bool.false_and, Bool.false_eq_true, if_false,
      Prod.mk.injEq, true_and]
    exact hcore
  | true =>
    have hcond : y % 4 = 0 ∧ (y % 100 ≠ 0 ∨ y % 400 = 0) := by
      rw [hleap] at hL
      simpa using hL.symm
    by_cases hfeb : m = 2 ∧ d = 29
    · obtain ⟨hm2, hd29⟩ := hfeb
      subst hm2 hd29
      have hyd : ydayOf y 2 29 = 59 := by
        simp [ydayOf, hleap, v1]
      have hyear := absYearDay_eq y (ydayOf y 2 29) secs h0 h1 (by rw [hyd]; omega)
        (Or.inl (by rw [hyd]; omega)) hs0 hs
      rw [hyd] at hyear ⊢
      simp [absDate, hyear, hleap]
    · by_cases hm3 : 3 ≤ m
      · have hdin : d ≤ daysBeforeAt m - daysBeforeAt (m - 1) := by
          have hm2 : ¬ m = 2 := by omega
          simpa [daysIn, hleap, hm2] using hd1
        have hyd : ydayOf y m d = daysBeforeAt (m - 1) + (d - 1) + 1 := by
          simp [ydayOf, hleap, hm3]
          omega
        have hyear := absYearDay_eq y (ydayOf y m d) secs h0 h1 (by rw [hyd]; omega)
          (by rw [hyd]; omega) hs0 hs
        have hcore := month_core m d hm0 hm1 hd0 hdin
        rw [hyd] at hyear ⊢
        have hne : ¬ (daysBeforeAt (m - 1) + (d - 1) + 1 = 31 + 29 - 1) := by
          have := hnd3 hm3
          omega
        have hgt : daysBeforeAt (m - 1) + (d - 1) + 1 > 31 + 29 - 1 := by
          have := hnd3 hm3
          omega
        have hsub : daysBeforeAt (m - 1) + (d - 1) + 1 - 1 = daysBeforeAt (m - 1) + (d - 1) := by
          omega
        simp only [absDate, hyear, hleap, Bool.true_and, decide_eq_true_eq, if_neg hne,
          if_pos hgt, hsub, Prod.mk.injEq, true_and]
        exact hcore
      · have hdin : d ≤ daysBeforeAt m - daysBeforeAt (m - 1) := by
          by_cases hm2 : m = 2
          · have hd29 : d ≤ 29 := by simpa [daysIn, hleap, hm2] using hd1
            have := hnd2a hm2
            have := hnd2b hm2
            omega
          · simpa [daysIn, hleap, hm2] using hd1
        have hyd : ydayOf y m d = daysBeforeAt (m - 1) + (d - 1) := by
          simp [ydayOf, hleap, hm3]
        have hsmall : daysBeforeAt (m - 1) + (d - 1) < 59 := by
          by_cases hm2 : m = 2
          · have := hnd2a hm2
            have := hnd2b hm2
            omega
          · have hm1' : m = 1 := by omega
            have := hnd1a hm1'
            have := hnd1b hm1'
            omega
        have hyear := absYearDay_eq y (ydayOf y m d) secs h0 h1 (by rw [hyd]; omega)
          (Or.inl (by rw [hyd]; omega)) hs0 hs
        have hcore := month_core m d hm0 hm1 hd0 hdin
        rw [hyd] at hyear ⊢
        have hne : ¬ (daysBeforeAt (m - 1) + (d - 1) = 31 + 29 - 1) := by omega
        have hgt : ¬ (daysBeforeAt (m - 1) + (d - 1) > 31 + 29 - 1) := by omega
        simp only [absDate, hyear, hleap, Bool.true_and, decide_eq_true_eq, if_neg hne,
          if_neg hgt, Prod.mk.injEq, true_and]
        exact hcore


theorem norm_id (hi lo base : Int) (h0 : 0 ≤ lo) (h1 : lo < base) : norm hi lo base = (hi, lo) := by
  have hlt : ¬ lo < 0 := by omega
  have hge : ¬ lo ≥ base := by omega
  simp only [norm, if_neg hlt, if_neg hge]

theorem absClock_eq (days h mi s : Int) (hh0 : 0 ≤ h) (hh1 : h < 24)
    (hm0 : 0 ≤ mi) (hm1 : mi < 60) (hs0 : 0 ≤ s) (hs1 : s < 60) :
    absClock (days * 86400 + (h * 3600 + mi * 60 + s)) = (h, mi, s) := by
  have hmod : (days * 86400 + (h * 3600 + mi * 60 + s)) % 86400 = h * 3600 + mi * 60 + s := by
    omega
  have hn : (0 : Int) ≤ h * 3600 + mi * 60 + s := by omega
  have hq : (h * 3600 + mi * 60 + s) / 3600 = h := by omega
  have hn2 : (0 : Int) ≤ h * 3600 + mi * 60 + s - h * 3600 := by omega
  have hq2 : (h * 3600 + mi * 60 + s - h * 3600) / 60 = mi := by omega
  simp only [absClock, secondsPerDay, secondsPerHour, secondsPerMinute, Int.reduceMul, hmod,
    Int.tdiv_eq_ediv hn (by decide : (0 : Int) ≤ 3600), hq,
    Int.tdiv_eq_ediv hn2 (by decide : (0 : Int) ≤ 60), hq2, Prod.mk.injEq, true_and]
  omega

theorem ydayOf_bounds (y m d : Int) (hm0 : 1 ≤ m) (hm1 : m ≤ 12)
    (hd0 : 1 ≤ d) (hd1 : d ≤ daysIn m y) : 0 ≤ ydayOf y m d ∧ ydayOf y m d ≤ 365 := by
  obtain ⟨v0, v1, v2, v3, v4, v5, v6, v7, v8, v9, v10, v11, v12⟩ := daysBeforeAt_vals
  cases hleap : isLeap y <;> interval_cases m <;>
    simp [ydayOf, daysIn, hleap, v0, v1, v2, v3, v4, v5, v6, v7, v8, v9, v10, v11, v12] at hd1 ⊢ <;>
    omega

theorem Date_eq (st : ParseState) (h : FieldsOk st) :
    Date st.year st.month st.day st.hour st.min st.sec st.nsec =
      { unix := absOf st - unixToAbsolute, nsec := st.nsec, offset := 0 } := by
  obtain ⟨hy0, hy1, hm0, hm1, hd0, hd1, hh0, hh1, hmi0, hmi1, hs0, hs1, hn0, hn1⟩ := h
  have hyd := ydayOf_bounds st.year st.month st.day hm0 hm1 hd0 hd1
  have hdse := daysSinceEpoch_bounds st.year hy0 hy1
  have e1 : norm st.year (st.month - 1) 12 = (st.year, st.month - 1) :=
    norm_id _ _ _ (by omega) (by omega)
  have e2 : norm st.sec st.nsec 1000000000 = (st.sec, st.nsec) := norm_id _ _ _ hn0 hn1
  have e3 : norm st.min st.sec 60 = (st.min, st.sec) := norm_id _ _ _ hs0 hs1
  have e4 : norm st.hour st.min 60 = (st.hour, st.min) := norm_id _ _ _ hmi0 hmi1
  have e5 : norm st.day st.hour 24 = (st.day, st.hour) := norm_id _ _ _ hh0 hh1
  have hm : st.month - 1 + 1 = st.month := by omega
  simp only [Date, e1, e2, e3, e4, e5, hm]
  simp only [absOf, ydayOf, unixToAbsolute] at hyd ⊢
  congr 1
  have hdb : 0 ≤ daysBeforeAt (st.month - 1) ∧ daysBeforeAt (st.month - 1) ≤ 334 := by
    obtain ⟨v0, v1, v2, v3, v4, v5, v6, v7, v8, v9, v10, v11, v12⟩ := daysBeforeAt_vals
    generalize st.month = m at hm0 hm1
    interval_cases m <;>
      norm_num [v0, v1, v2, v3, v4, v5, v6, v7, v8, v9, v10, v11, v12]
  generalize daysBeforeAt (st.month - 1) = db at hyd hdb ⊢
  generalize daysSinceEpoch st.year = dse at hdse ⊢
  cases hl : (isLeap st.year && decide (st.month ≥ 3)) <;>
    simp only [hl, if_true, Bool.false_eq_true, if_false] at hyd ⊢ <;>
    simp only [wrapUint64, wrapInt64, secondsPerDay, secondsPerHour, secondsPerMinute,
      absoluteToInternal, internalToUnix, unixToInternal, absoluteZeroYear, internalYear] <;>
    omega


theorem appendInt_two (n : Int) (h0 : 0 ≤ n) (h1 : n < 100) : appendInt n 2 = twoDigits n := by
  have hn : ¬ n < 0 := by omega
  simp [appendInt, hn, h1, twoDigits]

theorem appendInt_four (n : Int) (h0 : 0 ≤ n) (h1 : n < 10000) :
    appendInt n 4 = fourDigits n := by
  have hn : ¬ n < 0 := by omega
  simp [appendInt, hn, h1, fourDigits]

theorem abs_timeOfFields (st : ParseState) (zone : Int) (h : FieldsOk st) :
    (timeOfFields st zone).abs = absOf st := by
  obtain ⟨hy0, hy1, hm0, hm1, hd0, hd1, hh0, hh1, hmi0, hmi1, hs0, hs1, hn0, hn1⟩ := h
  have hyd := ydayOf_bounds st.year st.month st.day hm0 hm1 hd0 hd1
  have hdse := daysSinceEpoch_bounds st.year hy0 hy1
  simp only [Time.abs, timeOfFields, absOf, unixToAbsolute, wrapUint64, wrapInt64,
    unixToInternal, internalToAbsolute, absoluteToInternal, absoluteZeroYear, internalYear,
    secondsPerDay, secondsPerHour, secondsPerMinute]
  generalize ydayOf st.year st.month st.day = yd at hyd ⊢
  generalize daysSinceEpoch st.year = dse at hdse ⊢
  omega

theorem formatRFC3339_eq (st : ParseState) (zone : Int) (h : FieldsOk st)
    (hz0 : -90000 ≤ zone) (hz1 : zone ≤ 90000) (hz60 : zone % 60 = 0) :
    formatRFC3339 (timeOfFields st zone) = renderRFC3339 st zone := by
  have habs := abs_timeOfFields st zone h
  obtain ⟨hy0, hy1, hm0, hm1, hd0, hd1, hh0, hh1, hmi0, hmi1, hs0, hs1, hn0, hn1⟩ := h
  have hsecs : 0 ≤ st.hour * 3600 + st.min * 60 + st.sec ∧
      st.hour * 3600 + st.min * 60 + st.sec < 86400 := by omega
  have hdate : absDate (absOf st) = (st.year, st.month, st.day) :=
    absDate_eq st.year st.month st.day _ hy0 hy1 hm0 hm1 hd0 hd1 hsecs.1 hsecs.2
  have hclock : absClock (absOf st) = (st.hour, st.min, st.sec) :=
    absClock_eq _ st.hour st.min st.sec hh0 hh1 hmi0 hmi1 hs0 hs1
  have hd31 : st.day < 100 := by
    have : daysIn st.month st.year ≤ 31 := by
      obtain ⟨v0, v1, v2, v3, v4, v5, v6, v7, v8, v9, v10, v11, v12⟩ := daysBeforeAt_vals
      generalize st.month = m at hm0 hm1
      unfold daysIn
      split
      · omega
      · interval_cases m <;>
          norm_num [v0, v1, v2, v3, v4, v5, v6, v7, v8, v9, v10, v11, v12]
    omega
  simp only [formatRFC3339, habs, hdate, hclock, renderRFC3339,
    appendInt_four st.year hy0 (by omega), appendInt_two st.month (by omega) (by omega),
    appendInt_two st.day (by omega) hd31, appendInt_two st.hour hh0 (by omega),
    appendInt_two st.min hmi0 (by omega), appendInt_two st.sec hs0 (by omega)]
  have hoff : (timeOfFields st zone).offset = zone := rfl
  rw [hoff]
  unfold zoneRFC3339
  by_cases hz : zone = 0
  · simp [hz]
  · have htd : zone.tdiv 60 = zone / 60 :=
      Int.tdiv_eq_ediv_of_dvd (Int.dvd_of_emod_eq_zero hz60)
    simp only [hz, if_false, htd]
    by_cases hneg : zone < 0
    · have h1 : zone / 60 < 0 := by omega
      have h2 : (0 : Int) ≤ -zone / 60 := by omega
      have h3 : -(zone / 60) = -zone / 60 := by omega
      simp only [h1, hneg, if_true, h3]
      rw [Int.tdiv_eq_ediv h2 (by decide : (0 : Int) ≤ 60),
        Int.tmod_eq_emod h2 (by decide : (0 : Int) ≤ 60)]
      rw [appendInt_two _ (by omega) (by omega), appendInt_two _ (by omega) (by omega)]
      simp
    · have h1 : ¬ zone / 60 < 0 := by omega
      have h2 : (0 : Int) ≤ zone / 60 := by omega
      simp only [h1, hneg, if_false, Int.tdiv_eq_ediv h2 (by decide : (0 : Int) ≤ 60),
        Int.tmod_eq_emod h2 (by decide : (0 : Int) ≤ 60)]
      rw [appendInt_two _ (by omega) (by omega), appendInt_two _ (by omega) (by omega)]
      simp


theorem digitChar_toNat (u : Int) (h0 : 0 ≤ u) (h1 : u ≤ 9) :
    ((digitChar u).toNat : Int) = 48 + u := by
  interval_cases u <;> decide

theorem digitChar_isDigit (u : Int) (h0 : 0 ≤ u) (h1 : u ≤ 9) :
    48 ≤ (digitChar u).toNat ∧ (digitChar u).toNat ≤ 57 := by
  have := digitChar_toNat u h0 h1
  omega

theorem digitVal_digitChar (u : Int) (h0 : 0 ≤ u) (h1 : u ≤ 9) : digitVal (digitChar u) = u := by
  have := digitChar_toNat u h0 h1
  unfold digitVal
  omega

theorem getnum_two (a b : Int) (rest : GoString) (fixed : Bool) (ha0 : 0 ≤ a) (ha1 : a ≤ 9)
    (hb0 : 0 ≤ b) (hb1 : b ≤ 9) :
    getnum (digitChar a :: digitChar b :: rest) fixed = some (a * 10 + b, rest) := by
  have hA := digitChar_isDigit a ha0 ha1
  have hB := digitChar_isDigit b hb0 hb1
  simp [getnum, isDigit, hA.1, hA.2, hB.1, hB.2, digitVal_digitChar a ha0 ha1,
    digitVal_digitChar b hb0 hb1]

theorem getnum_twoDigits (n : Int) (rest : GoString) (fixed : Bool) (h0 : 0 ≤ n) (h1 : n < 100) :
    getnum (twoDigits n ++ rest) fixed = some (n, rest) := by
  have := getnum_two (n / 10) (n % 10) rest fixed (by omega) (by omega) (by omega) (by omega)
  have hn : n / 10 * 10 + n % 10 = n := by omega
  rw [hn] at this
  simpa [twoDigits] using this

theorem leadingInt_digit (x a : Int) (rest : GoString) (hx0 : 0 ≤ x) (hx1 : x ≤ 1000000000)
    (ha0 : 0 ≤ a) (ha1 : a ≤ 9) :
    leadingInt x (digitChar a :: rest) = leadingInt (x * 10 + a) rest := by
  have hA := digitChar_isDigit a ha0 ha1
  have hv := digitChar_toNat a ha0 ha1
  have h1 : ¬ ((digitChar a).toNat < 48 ∨ (digitChar a).toNat > 57) := by omega
  have h2 : ¬ (x > 9223372036854775808 / 10) := by omega
  have h3 : ¬ (x * 10 + a > 9223372036854775808) := by omega
  have h4 : x * 10 + ((digitChar a).toNat : Int) - 48 = x * 10 + a := by omega
  simp only [leadingInt, if_neg h1, if_neg h2, h4, if_neg h3]

theorem atoi_fourDigits (n : Int) (h0 : 0 ≤ n) (h1 : n < 10000) : atoi (fourDigits n) = some n := by
  have hA := digitChar_isDigit (n / 100 / 10) (by omega) (by omega)
  have hs1 : ¬ (digitChar (n / 100 / 10) = '-') := by
    intro h
    rw [h] at hA
    revert hA
    decide
  have hs2 : ¬ (digitChar (n / 100 / 10) = '+') := by
    intro h
    rw [h] at hA
    revert hA
    decide
  have hl : leadingInt 0 (fourDigits n) = some (n, []) := by
    unfold fourDigits
    rw [leadingInt_digit _ _ _ (by omega) (by omega) (by omega) (by omega),
      leadingInt_digit _ _ _ (by omega) (by omega) (by omega) (by omega),
      leadingInt_digit _ _ _ (by omega) (by omega) (by omega) (by omega),
      leadingInt_digit _ _ _ (by omega) (by omega) (by omega) (by omega)]
    simp only [leadingInt]
    congr 2
    omega
  have hw : wrapInt64 n = n := by
    unfold wrapInt64
    omega
  unfold atoi
  have hsign : (decide (0 < (fourDigits n).length) &&
      ((fourDigits n).headD '0' == '-' || (fourDigits n).headD '0' == '+')) = false := by
    simp [fourDigits, hs1, hs2]
  simp only [hsign, Bool.false_and, Bool.false_eq_true, if_false, hl, List.length_nil,
    Nat.lt_irrefl, hw]


theorem skip_nil (value : GoString) : skip value [] = some value := by
  simp [skip, skipLoop]

theorem skip_char (c : Char) (rest : GoString) (hc : c ≠ ' ') :
    skip (c :: rest) [c] = some rest := by
  simp [skip, skipLoop, hc]

theorem parseStd_year (s0 : ParseState) (n : Int) (rest : GoString) (h0 : 0 ≤ n)
    (h1 : n < 10000) :
    parseStd .stdLongYear s0 (fourDigits n ++ rest) = some ({ s0 with year := n }, rest) := by
  have hA := digitChar_isDigit (n / 100 / 10) (by omega) (by omega)
  have hlen : ¬ ((fourDigits n ++ rest).length < 4 ∨ (!isDigit (fourDigits n ++ rest) 0) = true) := by
    simp [fourDigits, isDigit, hA.1, hA.2]
  have htake : (fourDigits n ++ rest).take 4 = fourDigits n := by simp [fourDigits]
  have hdrop : (fourDigits n ++ rest).drop 4 = rest := by simp [fourDigits]
  simp only [parseStd, if_neg hlen, htake, hdrop, atoi_fourDigits n h0 h1]
  rfl

theorem parseStd_month (s0 : ParseState) (n : Int) (rest : GoString) (h0 : 1 ≤ n)
    (h1 : n ≤ 12) :
    parseStd .stdZeroMonth s0 (twoDigits n ++ rest) = some ({ s0 with month := n }, rest) := by
  have hr : ¬ (n ≤ 0 ∨ 12 < n) := by omega
  simp only [parseStd, getnum_twoDigits n rest true (by omega) (by omega)]
  simp [hr]

theorem parseStd_day (s0 : ParseState) (n : Int) (rest : GoString) (h0 : 0 ≤ n)
    (h1 : n < 100) :
    parseStd .stdZeroDay s0 (twoDigits n ++ rest) = some ({ s0 with day := n }, rest) := by
  simp only [parseStd, getnum_twoDigits n rest true h0 h1]
  simp

theorem parseStd_hour (s0 : ParseState) (n : Int) (rest : GoString) (h0 : 0 ≤ n)
    (h1 : n < 24) :
    parseStd .stdHour s0 (twoDigits n ++ rest) = some ({ s0 with hour := n }, rest) := by
  have hr : ¬ (n < 0 ∨ 24 ≤ n) := by omega
  simp only [parseStd, getnum_twoDigits n rest false h0 (by omega)]
  simp [hr]

theorem parseStd_minute (s0 : ParseState) (n : Int) (rest : GoString) (h0 : 0 ≤ n)
    (h1 : n < 60) :
    parseStd .stdZeroMinute s0 (twoDigits n ++ rest) = some ({ s0 with min := n }, rest) := by
  have hr : ¬ (n < 0 ∨ 60 ≤ n) := by omega
  simp only [parseStd, getnum_twoDigits n rest true h0 (by omega)]
  simp [hr]

theorem parseStd_second (s0 : ParseState) (n : Int) (rest : GoString) (h0 : 0 ≤ n)
    (h1 : n < 60) (hrest : commaOrPeriod (rest.headD ' ') = false) :
    parseStd .stdZeroSecond s0 (twoDigits n ++ rest) = some ({ s0 with sec := n }, rest) := by
  have hr : ¬ (n < 0 ∨ 60 ≤ n) := by omega
  have hfrac : ¬ (2 ≤ rest.length ∧ commaOrPeriod (rest.headD ' ') = true ∧
      isDigit rest 1 = true) := by
    rw [hrest]
    simp
  simp only [parseStd, getnum_twoDigits n rest true h0 (by omega), Option.bind_eq_bind,
    Option.some_bind, if_neg hr, if_neg hfrac]

theorem zone_no_fraction (zone : Int) : commaOrPeriod ((zoneRFC3339 zone).headD ' ') = false := by
  unfold zoneRFC3339
  split
  · decide
  · split <;> simp [commaOrPeriod]

theorem parseOffset_two (sign : GoString) (hr mm : Int) (hh0 : 0 ≤ hr) (hh1 : hr ≤ 24)
    (hm0 : 0 ≤ mm) (hm1 : mm < 60) :
    parseOffset sign (twoDigits hr) (twoDigits mm) =
      if sign = ['+'] then some ((hr * 60 + mm) * 60)
      else if sign = ['-'] then some (-((hr * 60 + mm) * 60)) else none := by
  have h1 := getnum_twoDigits hr [] true hh0 (by omega)
  have h2 := getnum_twoDigits mm [] true hm0 (by omega)
  have h3 : getnum "00".toList true = some (0, []) := by decide
  rw [List.append_nil] at h1 h2
  have hr' : ¬ (hr > 24 ∨ mm > 60 ∨ (0 : Int) > 60) := by omega
  simp only [parseOffset, h1, h2, h3, Option.bind_eq_bind, Option.some_bind, if_neg hr',
    Int.add_zero]


theorem parseStd_zone (s0 : ParseState) (zone : Int) (hz0 : -90000 < zone) (hz1 : zone < 90000)
    (hz60 : zone % 60 = 0) :
    parseStd .stdISO8601ColonTZ s0 (zoneRFC3339 zone) =
      some (if zone = 0 then { s0 with zUTC := true } else { s0 with zoneOffset := zone }, []) := by
  unfold zoneRFC3339
  by_cases hz : zone = 0
  · simp [hz, parseStd]
  · simp only [hz, if_false]
    by_cases hneg : zone < 0
    · simp only [hneg, if_true]
      have hZ : ¬ (1 ≤ (['-'] ++ twoDigits (-zone / 60 / 60) ++ [':'] ++
          twoDigits (-zone / 60 % 60)).length ∧
          (['-'] ++ twoDigits (-zone / 60 / 60) ++ [':'] ++
            twoDigits (-zone / 60 % 60)).headD ' ' = 'Z') := by
        simp
      have hlen : ¬ ((['-'] ++ twoDigits (-zone / 60 / 60) ++ [':'] ++
          twoDigits (-zone / 60 % 60)).length < 6) := by
        simp [twoDigits]
      have hcol : ¬ ((['-'] ++ twoDigits (-zone / 60 / 60) ++ [':'] ++
          twoDigits (-zone / 60 % 60)).getD 3 ' ' ≠ ':') := by
        simp [twoDigits]
      have e1 : (['-'] ++ twoDigits (-zone / 60 / 60) ++ [':'] ++
          twoDigits (-zone / 60 % 60)).take 1 = ['-'] := by simp
      have e2 : ((['-'] ++ twoDigits (-zone / 60 / 60) ++ [':'] ++
          twoDigits (-zone / 60 % 60)).drop 1).take 2 = twoDigits (-zone / 60 / 60) := by
        simp [twoDigits]
      have e3 : ((['-'] ++ twoDigits (-zone / 60 / 60) ++ [':'] ++
          twoDigits (-zone / 60 % 60)).drop 4).take 2 = twoDigits (-zone / 60 % 60) := by
        simp [twoDigits]
      have e4 : (['-'] ++ twoDigits (-zone / 60 / 60) ++ [':'] ++
          twoDigits (-zone / 60 % 60)).drop 6 = [] := by
        simp [twoDigits]
      have hoff := parseOffset_two ['-'] (-zone / 60 / 60) (-zone / 60 % 60) (by omega) (by omega)
        (by omega) (by omega)
      have hval : -((-zone / 60 / 60 * 60 + -zone / 60 % 60) * 60) = zone := by omega
      have hs : ¬ (['-'] = ['+']) := by decide
      rw [if_neg hs, if_pos rfl, hval] at hoff
      simp only [parseStd, if_neg hZ, if_neg hlen, if_neg hcol, e1, e2, e3, e4, hoff,
        Option.bind_eq_bind, Option.some_bind]
    · simp only [hneg, if_false]
      have hZ : ¬ (1 ≤ (['+'] ++ twoDigits (zone / 60 / 60) ++ [':'] ++
          twoDigits (zone / 60 % 60)).length ∧
          (['+'] ++ twoDigits (zone / 60 / 60) ++ [':'] ++
            twoDigits (zone / 60 % 60)).headD ' ' = 'Z') := by
        simp
      have hlen : ¬ ((['+'] ++ twoDigits (zone / 60 / 60) ++ [':'] ++
          twoDigits (zone / 60 % 60)).length < 6) := by
        simp [twoDigits]
      have hcol : ¬ ((['+'] ++ twoDigits (zone / 60 / 60) ++ [':'] ++
          twoDigits (zone / 60 % 60)).getD 3 ' ' ≠ ':') := by
        simp [twoDigits]
      have e1 : (['+'] ++ twoDigits (zone / 60 / 60) ++ [':'] ++
          twoDigits (zone / 60 % 60)).take 1 = ['+'] := by simp
      have e2 : ((['+'] ++ twoDigits (zone / 60 / 60) ++ [':'] ++
          twoDigits (zone / 60 % 60)).drop 1).take 2 = twoDigits (zone / 60 / 60) := by
        simp [twoDigits]
      have e3 : ((['+'] ++ twoDigits (zone / 60 / 60) ++ [':'] ++
          twoDigits (zone / 60 % 60)).drop 4).take 2 = twoDigits (zone / 60 % 60) := by
        simp [twoDigits]
      have e4 : (['+'] ++ twoDigits (zone / 60 / 60) ++ [':'] ++
          twoDigits (zone / 60 % 60)).drop 6 = [] := by
        simp [twoDigits]
      have hoff := parseOffset_two ['+'] (zone / 60 / 60) (zone / 60 % 60) (by omega) (by omega)
        (by omega) (by omega)
      have hval : (zone / 60 / 60 * 60 + zone / 60 % 60) * 60 = zone := by omega
      rw [if_pos rfl, hval] at hoff
      simp only [parseStd, if_neg hZ, if_neg hlen, if_neg hcol, e1, e2, e3, e4, hoff,
        Option.bind_eq_bind, Option.some_bind]


theorem daysIn_le (m y : Int) (hm0 : 1 ≤ m) (hm1 : m ≤ 12) : daysIn m y ≤ 31 := by
  obtain ⟨v0, v1, v2, v3, v4, v5, v6, v7, v8, v9, v10, v11, v12⟩ := daysBeforeAt_vals
  unfold daysIn
  split
  · omega
  · interval_cases m <;>
      norm_num [v0, v1, v2, v3, v4, v5, v6, v7, v8, v9, v10, v11, v12]

theorem finishParse_ok (st : ParseState) (h : FieldsOk st)
    (hz : st.zUTC = false → st.zoneOffset % 60 = 0) :
    finishParse st =
      some (timeOfFields st (if st.zUTC then 0 else st.zoneOffset)) := by
  have hD := Date_eq st h
  obtain ⟨hy0, hy1, hm0, hm1, hd0, hd1, hh0, hh1, hmi0, hmi1, hs0, hs1, hn0, hn1⟩ := h
  have hm : ¬ st.month < 0 := by omega
  have hd : ¬ st.day < 0 := by omega
  have hchk : ¬ (st.day < 1 ∨ st.day > daysIn st.month st.year) := by omega
  simp only [finishParse, if_neg hm, if_neg hd, if_neg hchk, hD]
  by_cases hutc : st.zUTC = true
  · simp [hutc, timeOfFields]
  · have hne : st.zoneOffset ≠ -1 := by
      have := hz (by simpa using hutc)
      omega
    simp [hutc, hne, timeOfFields, Time.addSec]
    omega

theorem parse_render (st : ParseState) (zone : Int) (h : FieldsOk st)
    (hz0 : -90000 < zone) (hz1 : zone < 90000) (hz60 : zone % 60 = 0) :
    timeParse layoutRFC3339 (renderRFC3339 st zone) =
      some (timeOfFields { st with nsec := 0 } zone) := by
  obtain ⟨hy0, hy1, hm0, hm1, hd0, hd1, hh0, hh1, hmi0, hmi1, hs0, hs1, hn0, hn1⟩ := h
  have hd31 := daysIn_le st.month st.year hm0 hm1
  have hloop : parseLoop layoutRFC3339.chunks {} (renderRFC3339 st zone) =
      some (if zone = 0 then
          { year := st.year, month := st.month, day := st.day, hour := st.hour, min := st.min,
            sec := st.sec, nsec := 0, zUTC := true, zoneOffset := -1 }
        else
          { year := st.year, month := st.month, day := st.day, hour := st.hour, min := st.min,
            sec := st.sec, nsec := 0, zUTC := false, zoneOffset := zone }, []) := by
    have c1 : ∀ rest : GoString, skip ('-' :: rest) ['-'] = some rest :=
      fun rest => skip_char _ rest (by decide)
    have c2 : ∀ rest : GoString, skip ('T' :: rest) ['T'] = some rest :=
      fun rest => skip_char _ rest (by decide)
    have c3 : ∀ rest : GoString, skip (':' :: rest) [':'] = some rest :=
      fun rest => skip_char _ rest (by decide)
    simp only [layoutRFC3339, renderRFC3339, parseLoop, List.append_assoc, List.singleton_append, List.cons_append, List.nil_append,
      show "".toList = ([] : List Char) from rfl, show "-".toList = ['-'] from rfl,
      show "T".toList = ['T'] from rfl, show ":".toList = [':'] from rfl,
      skip_nil, c1, c2, c3,
      Option.bind_eq_bind, Option.some_bind,
      parseStd_year _ st.year _ hy0 (by omega), parseStd_month _ st.month _ hm0 hm1,
      parseStd_day _ st.day _ (by omega) (by omega), parseStd_hour _ st.hour _ hh0 hh1,
      parseStd_minute _ st.min _ hmi0 hmi1,
      parseStd_second _ st.sec _ hs0 hs1 (zone_no_fraction zone),
      parseStd_zone _ zone hz0 hz1 hz60]
  simp only [timeParse, hloop, Option.bind_eq_bind, Option.some_bind,
    show layoutRFC3339.tail = [] from rfl, skip_nil, List.length_nil, ne_eq, not_true_eq_false,
    if_false]
  by_cases hz : zone = 0
  · subst hz
    have hf := finishParse_ok
      { year := st.year, month := st.month, day := st.day, hour := st.hour, min := st.min,
        sec := st.sec, nsec := 0, zUTC := true, zoneOffset := -1 }
      ⟨hy0, hy1, hm0, hm1, hd0, hd1, hh0, hh1, hmi0, hmi1, hs0, hs1, by simp, by simp⟩
      (by simp)
    simp only [if_true, hf]
    simp [timeOfFields, absOf]
  · have hf := finishParse_ok
      { year := st.year, month := st.month, day := st.day, hour := st.hour, min := st.min,
        sec := st.sec, nsec := 0, zUTC := false, zoneOffset := zone }
      ⟨hy0, hy1, hm0, hm1, hd0, hd1, hh0, hh1, hmi0, hmi1, hs0, hs1, by simp, by simp⟩
      (by simpa using hz60)
    simp only [hz, if_false, hf]
    simp [timeOfFields, absOf]


theorem isDigit_zero {s : GoString} (h : isDigit s 0 = true) :
    ∃ c rest, s = c :: rest ∧ 48 ≤ c.toNat ∧ c.toNat ≤ 57 := by
  cases s with
  | nil => simp [isDigit] at h
  | cons c rest =>
    simp [isDigit] at h
    exact ⟨c, rest, rfl, h.1, h.2⟩

theorem isDigit_one {c : Char} {s : GoString} (h : isDigit (c :: s) 1 = true) :
    ∃ d rest, s = d :: rest ∧ 48 ≤ d.toNat ∧ d.toNat ≤ 57 := by
  cases s with
  | nil => simp [isDigit] at h
  | cons d rest =>
    simp [isDigit] at h
    exact ⟨d, rest, rfl, h.1, h.2⟩

theorem getnum_some {s rest : GoString} {fixed : Bool} {n : Int}
    (h : getnum s fixed = some (n, rest)) : 0 ≤ n ∧ n ≤ 99 := by
  unfold getnum at h
  by_cases h0 : isDigit s 0 = true
  · obtain ⟨c, r, rfl, hc0, hc1⟩ := isDigit_zero h0
    by_cases h1 : isDigit (c :: r) 1 = true
    · obtain ⟨d, r2, rfl, hd0, hd1⟩ := isDigit_one h1
      simp [h0, h1, digitVal] at h
      omega
    · simp [h0, h1, digitVal] at h
      omega
  · simp [h0] at h

theorem lookupFrom_some {tab : List GoString} {v rest : GoString} {i k : Int}
    (h : lookupFrom i tab v = some (k, rest)) : i ≤ k ∧ k < i + tab.length := by
  induction tab generalizing i with
  | nil => simp [lookupFrom] at h
  | cons w tab ih =>
    unfold lookupFrom at h
    split at h
    · simp only [Option.some.injEq, Prod.mk.injEq] at h
      simp only [List.length_cons]
      omega
    · have := ih h
      simp only [List.length_cons]
      omega

theorem leadingInt_bound {s rem : GoString} {x q : Int} (hx : 0 ≤ x)
    (h : leadingInt x s = some (q, rem)) (hrem : rem = []) :
    0 ≤ q ∧ q < (x + 1) * 10 ^ s.length := by
  induction s generalizing x with
  | nil =>
    simp only [leadingInt, Option.some.injEq, Prod.mk.injEq] at h
    simp only [List.length_nil, pow_zero, mul_one]
    omega
  | cons c cs ih =>
    simp only [leadingInt] at h
    by_cases hc : c.toNat < 48 ∨ c.toNat > 57
    · rw [if_pos hc] at h
      simp only [Option.some.injEq, Prod.mk.injEq] at h
      rw [hrem] at h
      exact absurd h.2 (by simp)
    · rw [if_neg hc] at h
      by_cases h2 : x > 9223372036854775808 / 10
      · rw [if_pos h2] at h
        exact absurd h (by simp)
      · rw [if_neg h2] at h
        by_cases h3 : x * 10 + (c.toNat : Int) - 48 > 9223372036854775808
        · rw [if_pos h3] at h
          exact absurd h (by simp)
        · rw [if_neg h3] at h
          have := ih (x := x * 10 + (c.toNat : Int) - 48) (by omega) h
          refine ⟨this.1, lt_of_lt_of_le this.2 ?_⟩
          rw [List.length_cons, pow_succ]
          have hp : (0 : Int) ≤ 10 ^ cs.length := by positivity
          have hle : x * 10 + (c.toNat : Int) - 48 + 1 ≤ (x + 1) * 10 := by omega
          calc (x * 10 + (c.toNat : Int) - 48 + 1) * 10 ^ cs.length
              ≤ ((x + 1) * 10) * 10 ^ cs.length := mul_le_mul_of_nonneg_right hle hp
            _ = (x + 1) * (10 ^ cs.length * 10) := by ring


theorem atoi_unsigned {s : GoString} {y : Int} (hd : isDigit s 0 = true) (hlen : s.length ≤ 9)
    (h : atoi s = some y) : 0 ≤ y ∧ y < 10 ^ s.length := by
  obtain ⟨c, rest, rfl, hc0, hc1⟩ := isDigit_zero hd
  have hs1 : ¬ (c = '-') := by
    intro he
    rw [he] at hc0
    revert hc0
    decide
  have hs2 : ¬ (c = '+') := by
    intro he
    rw [he] at hc0
    revert hc0
    decide
  have hsign : (decide (0 < (c :: rest).length) &&
      ((c :: rest).headD '0' == '-' || (c :: rest).headD '0' == '+')) = false := by
    simp [hs1, hs2]
  unfold atoi at h
  simp only [hsign, Bool.false_and, Bool.false_eq_true, if_false] at h
  cases hl : leadingInt 0 (c :: rest) with
  | none => simp [hl] at h
  | some r =>
    obtain ⟨q, rem⟩ := r
    simp only [hl] at h
    by_cases hr : 0 < rem.length
    · simp [hr] at h
    · simp only [hr, if_false, Option.some.injEq] at h
      have hrem : rem = [] := List.length_eq_zero.mp (by omega)
      have hb := leadingInt_bound (le_refl 0) hl hrem
      have hpow : (10 : Int) ^ (c :: rest).length ≤ 10 ^ 9 :=
        pow_le_pow_right₀ (by norm_num) hlen
      have hq : q < 1000000000 := by
        have : (0 + 1 : Int) * 10 ^ (c :: rest).length = 10 ^ (c :: rest).length := by ring
        rw [this] at hb
        have h9 : (10 : Int) ^ 9 = 1000000000 := by norm_num
        omega
      have hw : wrapInt64 q = q := by
        unfold wrapInt64
        omega
      rw [hw] at h
      subst h
      refine ⟨hb.1, ?_⟩
      have : (0 + 1 : Int) * 10 ^ (c :: rest).length = 10 ^ (c :: rest).length := by ring
      rw [← this]
      exact hb.2

theorem parseNanoseconds_some {value : GoString} {n : Nat} {ns : Int}
    (hd : isDigit value 1 = true) (hn : 2 ≤ n)
    (h : parseNanoseconds value n = some ns) : 0 ≤ ns ∧ ns < 1000000000 := by
  unfold parseNanoseconds at h
  by_cases hcp : commaOrPeriod (value.headD ' ') = true
  · simp only [hcp, Bool.not_true, Bool.false_eq_true, if_false] at h
    cases value with
    | nil => simp [isDigit] at hd
    | cons c0 v1 =>
      obtain ⟨d, r2, rfl, hd0, hd1⟩ := isDigit_one hd
      generalize hnb : (if n > 10 then 10 else n) = nb at h
      have hnb2 : 2 ≤ nb ∧ nb ≤ 10 := by
        rw [← hnb]
        split <;> omega
      generalize hv : (if n > 10 then (c0 :: d :: r2).take 10 else c0 :: d :: r2) = value1 at h
      have hshape : ∃ r3, ((value1.take nb).drop 1) = d :: r3 ∧ r3.length ≤ nb - 2 := by
        obtain ⟨k, hk⟩ : ∃ k, nb = k + 2 := ⟨nb - 2, by omega⟩
        rw [← hv]
        split
        · refine ⟨(r2.take 8).take k, ?_, ?_⟩
          · simp [hk, List.take_take]
          · simp [hk]
        · refine ⟨r2.take k, ?_, ?_⟩
          · simp [hk]
          · simp [hk]
      obtain ⟨r3, hr3, hr3len⟩ := hshape
      rw [hr3] at h
      cases ha : atoi (d :: r3) with
      | none => simp [ha] at h
      | some a =>
        simp only [ha] at h
        have hdig : isDigit (d :: r3) 0 = true := by simp [isDigit, hd0, hd1]
        have hb := atoi_unsigned hdig (by simp; omega) ha
        have hneg : ¬ a < 0 := by omega
        simp only [hneg, if_false, Option.some.injEq] at h
        subst h
        have hlen : (d :: r3).length ≤ nb - 1 := by simp; omega
        have hpow : (10 : Int) ^ (d :: r3).length ≤ 10 ^ (nb - 1) :=
          pow_le_pow_right₀ (by norm_num) hlen
        have ha2 : a < 10 ^ (nb - 1) := lt_of_lt_of_le hb.2 hpow
        have hnn : (0 : Int) ≤ 10 ^ (10 - nb) := by positivity
        refine ⟨mul_nonneg hb.1 hnn, ?_⟩
        have hpos : (0 : Int) < 10 ^ (10 - nb) := by positivity
        calc a * 10 ^ (10 - nb) < 10 ^ (nb - 1) * 10 ^ (10 - nb) :=
              mul_lt_mul_of_pos_right ha2 hpos
          _ = 10 ^ 9 := by
              rw [← pow_add]
              congr 1
              omega
          _ = 1000000000 := by norm_num
  · have hcp2 : commaOrPeriod (value.headD ' ') = false := by
      cases hb : commaOrPeriod (value.headD ' ')
      · rfl
      · exact absurd hb hcp
    rw [hcp2] at h
    simp only [Bool.not_false, if_true] at h
    exact absurd h (by simp)


theorem parseStd_weekday_inv {s0 : ParseState} {v : GoString} {r : ParseState × GoString}
    (h : parseStd .stdWeekDay s0 v = some r) : r.1 = s0 := by
  simp only [parseStd, Option.bind_eq_bind, Option.bind_eq_some, Option.some.injEq] at h
  obtain ⟨_, _, rfl⟩ := h
  rfl

theorem parseStd_day_inv {s0 : ParseState} {v : GoString} {r : ParseState × GoString}
    (h : parseStd .stdZeroDay s0 v = some r) :
    ∃ n, 0 ≤ n ∧ n ≤ 99 ∧ r.1 = { s0 with day := n } := by
  simp only [parseStd, Option.bind_eq_bind, Option.bind_eq_some, Option.some.injEq] at h
  obtain ⟨⟨n, rest⟩, hg, rfl⟩ := h
  have := getnum_some hg
  exact ⟨n, this.1, this.2, rfl⟩

theorem parseStd_month_inv {s0 : ParseState} {v : GoString} {r : ParseState × GoString}
    (h : parseStd .stdMonth s0 v = some r) :
    ∃ n, 1 ≤ n ∧ n ≤ 12 ∧ r.1 = { s0 with month := n } := by
  simp only [parseStd, Option.bind_eq_bind, Option.bind_eq_some, Option.some.injEq] at h
  obtain ⟨⟨k, rest⟩, hl, rfl⟩ := h
  have := lookupFrom_some hl
  simp only [shortMonthNames, List.length_cons, List.length_nil] at this
  exact ⟨k + 1, by omega, by omega, rfl⟩

theorem parseStd_year_inv {s0 : ParseState} {v : GoString} {r : ParseState × GoString}
    (h : parseStd .stdLongYear s0 v = some r) :
    ∃ n, 0 ≤ n ∧ n ≤ 9999 ∧ r.1 = { s0 with year := n } := by
  simp only [parseStd] at h
  by_cases hc : v.length < 4 ∨ (!isDigit v 0) = true
  · rw [if_pos hc] at h
    exact absurd h (by simp)
  · rw [if_neg hc] at h
    simp only [Option.bind_eq_bind, Option.bind_eq_some, Option.some.injEq] at h
    obtain ⟨y, hy, rfl⟩ := h
    have hd : isDigit v 0 = true := by
      cases hb : isDigit v 0
      · exact absurd (Or.inr (by simp [hb])) hc
      · rfl
    obtain ⟨c, rest, rfl, hc0, hc1⟩ := isDigit_zero hd
    have hd2 : isDigit ((c :: rest).take 4) 0 = true := by simp [isDigit, hc0, hc1]
    have hlen : ((c :: rest).take 4).length ≤ 4 := by simp
    have hb := atoi_unsigned hd2 (by omega) hy
    have hpow : (10 : Int) ^ ((c :: rest).take 4).length ≤ 10 ^ 4 :=
      pow_le_pow_right₀ (by norm_num) hlen
    have h4 : (10 : Int) ^ 4 = 10000 := by norm_num
    exact ⟨y, hb.1, by omega, rfl⟩

theorem parseStd_hour_inv {s0 : ParseState} {v : GoString} {r : ParseState × GoString}
    (h : parseStd .stdHour s0 v = some r) :
    ∃ n, 0 ≤ n ∧ n < 24 ∧ r.1 = { s0 with hour := n } := by
  simp only [parseStd, Option.bind_eq_bind, Option.bind_eq_some] at h
  obtain ⟨⟨n, rest⟩, _, h2⟩ := h
  by_cases hr : n < 0 ∨ 24 ≤ n
  · rw [if_pos hr] at h2
    exact absurd h2 (by simp)
  · rw [if_neg hr, Option.some.injEq] at h2
    subst h2
    exact ⟨n, by omega, by omega, rfl⟩

theorem parseStd_minute_inv {s0 : ParseState} {v : GoString} {r : ParseState × GoString}
    (h : parseStd .stdZeroMinute s0 v = some r) :
    ∃ n, 0 ≤ n ∧ n < 60 ∧ r.1 = { s0 with min := n } := by
  simp only [parseStd, Option.bind_eq_bind, Option.bind_eq_some] at h
  obtain ⟨⟨n, rest⟩, _, h2⟩ := h
  by_cases hr : n < 0 ∨ 60 ≤ n
  · rw [if_pos hr] at h2
    exact absurd h2 (by simp)
  · rw [if_neg hr, Option.some.injEq] at h2
    subst h2
    exact ⟨n, by omega, by omega, rfl⟩

theorem parseStd_second_inv {s0 : ParseState} {v : GoString} {r : ParseState × GoString}
    (h : parseStd .stdZeroSecond s0 v = some r) (hns : s0.nsec = 0) :
    ∃ n ns, 0 ≤ n ∧ n < 60 ∧ 0 ≤ ns ∧ ns < 1000000000 ∧
      r.1 = { s0 with sec := n, nsec := ns } := by
  simp only [parseStd, Option.bind_eq_bind, Option.bind_eq_some] at h
  obtain ⟨⟨n, rest⟩, _, h2⟩ := h
  by_cases hr : n < 0 ∨ 60 ≤ n
  · rw [if_pos hr] at h2
    exact absurd h2 (by simp)
  · rw [if_neg hr] at h2
    by_cases hf : 2 ≤ rest.length ∧ commaOrPeriod (rest.headD ' ') = true ∧ isDigit rest 1 = true
    · rw [if_pos hf] at h2
      simp only [Option.bind_eq_bind, Option.bind_eq_some, Option.some.injEq] at h2
      obtain ⟨ns, hp, rfl⟩ := h2
      have := parseNanoseconds_some hf.2.2 (by omega) hp
      exact ⟨n, ns, by omega, by omega, this.1, this.2, rfl⟩
    · rw [if_neg hf, Option.some.injEq] at h2
      subst h2
      refine ⟨n, 0, by omega, by omega, le_refl _, by norm_num, ?_⟩
      simp only [← hns]

theorem parseOffset_some {sign hour min : GoString} {off : Int}
    (h : parseOffset sign hour min = some off) :
    off % 60 = 0 ∧ -90000 ≤ off ∧ off ≤ 90000 := by
  simp only [parseOffset, Option.bind_eq_bind, Option.bind_eq_some] at h
  obtain ⟨⟨hr, r1⟩, h1, ⟨mm, r2⟩, h2, ⟨ss, r3⟩, h3, h4⟩ := h
  have hss : ss = 0 := by
    have : getnum "00".toList true = some (0, []) := by decide
    rw [this] at h3
    simp only [Option.some.injEq, Prod.mk.injEq] at h3
    exact h3.1.symm
  subst hss
  have b1 := getnum_some h1
  have b2 := getnum_some h2
  by_cases hrange : hr > 24 ∨ mm > 60 ∨ (0 : Int) > 60
  · rw [if_pos hrange] at h4
    exact absurd h4 (by simp)
  · rw [if_neg hrange] at h4
    split at h4
    · simp only [Option.some.injEq] at h4
      omega
    · split at h4
      · simp only [Option.some.injEq] at h4
        omega
      · exact absurd h4 (by simp)

theorem parseStd_numtz_inv {s0 : ParseState} {v : GoString} {r : ParseState × GoString}
    (h : parseStd .stdNumTZ s0 v = some r) :
    ∃ off, off % 60 = 0 ∧ -90000 ≤ off ∧ off ≤ 90000 ∧ r.1 = { s0 with zoneOffset := off } := by
  simp only [parseStd] at h
  by_cases hl : v.length < 5
  · rw [if_pos hl] at h
    exact absurd h (by simp)
  · rw [if_neg hl] at h
    simp only [Option.bind_eq_bind, Option.bind_eq_some, Option.some.injEq] at h
    obtain ⟨off, ho, rfl⟩ := h
    have := parseOffset_some ho
    exact ⟨off, this.1, this.2.1, this.2.2, rfl⟩


theorem parse_rfc1123z_inv {s : GoString} {t : Time}
    (h : timeParse layoutRFC1123Z s = some t) :
    ∃ st zone, FieldsOk st ∧ zone % 60 = 0 ∧ -90000 ≤ zone ∧ zone ≤ 90000 ∧
      t = timeOfFields st zone := by
  simp only [timeParse, layoutRFC1123Z, parseLoop, Option.bind_eq_bind, Option.bind_eq_some] at h
  obtain ⟨⟨st, rest⟩, hloop, rest2, _, hfin⟩ := h
  obtain ⟨v1, _, r1, p1, v2, _, r2, p2, v3, _, r3, p3, v4, _, r4, p4, v5, _, r5, p5, v6, _, r6,
    p6, v7, _, r7, p7, v8, _, r8, p8, hst⟩ := hloop
  have e1 := parseStd_weekday_inv p1
  obtain ⟨d, hd0, hd1, e2⟩ := parseStd_day_inv p2
  obtain ⟨mo, hmo0, hmo1, e3⟩ := parseStd_month_inv p3
  obtain ⟨y, hy0, hy1, e4⟩ := parseStd_year_inv p4
  obtain ⟨hh, hh0, hh1, e5⟩ := parseStd_hour_inv p5
  obtain ⟨mi, hmi0, hmi1, e6⟩ := parseStd_minute_inv p6
  obtain ⟨se, ns, hs0, hs1, hns0, hns1, e7⟩ := parseStd_second_inv p7
    (by simp only [e6, e5, e4, e3, e2, e1])
  obtain ⟨off, ho60, ho0, ho1, e8⟩ := parseStd_numtz_inv p8
  simp only [Option.some.injEq, Prod.mk.injEq] at hst
  have hstate : st =
      { year := y, month := mo, day := d, hour := hh, min := mi, sec := se,
        nsec := ns, zUTC := false, zoneOffset := off } := by
    rw [← hst.1, e8]
    simp only [e7, e6, e5, e4, e3, e2, e1]
  subst hstate
  by_cases hlen : rest2.length ≠ 0
  · rw [if_pos hlen] at hfin
    exact absurd hfin (by simp)
  · rw [if_neg hlen] at hfin
    have hday : 1 ≤ d ∧ d ≤ daysIn mo y := by
      by_contra hcon
      have hm : ¬ mo < 0 := by omega
      have hdn : ¬ d < 0 := by omega
      have : d < 1 ∨ d > daysIn mo y := by omega
      simp [finishParse, hm, hdn, this] at hfin
    have hok : FieldsOk
        { year := y, month := mo, day := d, hour := hh, min := mi, sec := se,
          nsec := ns, zUTC := false, zoneOffset := off } :=
      ⟨hy0, hy1, hmo0, hmo1, hday.1, hday.2, hh0, hh1, hmi0, hmi1, hs0, hs1, hns0, hns1⟩
    rw [finishParse_ok _ hok (fun _ => ho60)] at hfin
    simp only [Bool.false_eq_true, if_false, Option.some.injEq] at hfin
    exact ⟨_, off, hok, ho60, ho0, ho1, hfin.symm⟩


/-! ## Valid source timestamps -/

theorem isLeap_eq (y : Int) (h : 0 ≤ y) : isLeap y = isLeapYear y := by
  rw [isLeap_nonneg y h, isLeapYear]

theorem daysIn_eq (y m : Int) (h : 0 ≤ y) (hm0 : 1 ≤ m) (hm1 : m ≤ 12) :
    daysIn m y = monthLength y m := by
  obtain ⟨v0, v1, v2, v3, v4, v5, v6, v7, v8, v9, v10, v11, v12⟩ := daysBeforeAt_vals
  unfold daysIn monthLength
  rw [isLeap_eq y h]
  cases isLeapYear y <;> interval_cases m <;>
    norm_num [v0, v1, v2, v3, v4, v5, v6, v7, v8, v9, v10, v11, v12]

theorem ydayOf_eq (y m d : Int) (h : 0 ≤ y) (hm0 : 1 ≤ m) (hm1 : m ≤ 12) :
    ydayOf y m d = daysBeforeMonth y m + (d - 1) := by
  obtain ⟨v0, v1, v2, v3, v4, v5, v6, v7, v8, v9, v10, v11, v12⟩ := daysBeforeAt_vals
  unfold ydayOf daysBeforeMonth monthLength
  rw [isLeap_eq y h]
  cases isLeapYear y <;> interval_cases m <;>
    simp only [Int.reduceSub, v0, v1, v2, v3, v4, v5, v6, v7, v8, v9, v10, v11, Bool.false_and,
      Bool.true_and, Bool.false_eq_true, if_false, if_true, decide_eq_true_eq, add_left_inj,
      add_zero] <;>
    rfl

theorem daysSinceEpoch_civil (y : Int) (h0 : 0 ≤ y) (h1 : y ≤ 9999) :
    daysSinceEpoch y = daysBeforeYear y + 106751990353566 := by
  obtain ⟨a, b, c, e, ha, hb0, hb, hc0, hc, he0, he, hY, hdse⟩ := daysSinceEpoch_eq y h0 h1
  rw [hdse]
  unfold daysBeforeYear
  omega

theorem digitChar_ne_space (u : Int) (h0 : 0 ≤ u) (h1 : u ≤ 9) : digitChar u ≠ ' ' := by
  intro h
  have := digitChar_isDigit u h0 h1
  rw [h] at this
  revert this
  decide

theorem skip_space (c : Char) (r : GoString) (hc : c ≠ ' ') :
    skip (' ' :: c :: r) [' '] = some (c :: r) := by
  simp [skip, skipLoop, cutspace, hc]

theorem skip_comma_space (c : Char) (r : GoString) (hc : c ≠ ' ') :
    skip (',' :: ' ' :: c :: r) [',', ' '] = some (c :: r) := by
  simp [skip, skipLoop, cutspace, hc]

theorem lookup_dayName (w : Nat) (hw : w < 7) (rest : GoString) :
    lookup shortDayNames (shortDayNames.getD w [] ++ rest) = some ((w : Int), rest) := by
  interval_cases w <;> simp [lookup, lookupFrom, shortDayNames, matchFold]

theorem lookup_monthName (k : Nat) (hk : k < 12) (rest : GoString) :
    lookup shortMonthNames (shortMonthNames.getD k [] ++ rest) = some ((k : Int), rest) := by
  interval_cases k <;> simp [lookup, lookupFrom, shortMonthNames, matchFold]

theorem skip_comma_space_two (n : Int) (r : GoString) (h0 : 0 ≤ n) (h1 : n < 100) :
    skip (',' :: ' ' :: (twoDigits n ++ r)) [',', ' '] = some (twoDigits n ++ r) := by
  simp only [twoDigits, List.cons_append, List.nil_append]
  exact skip_comma_space _ _ (digitChar_ne_space _ (by omega) (by omega))

theorem skip_space_two (n : Int) (r : GoString) (h0 : 0 ≤ n) (h1 : n < 100) :
    skip (' ' :: (twoDigits n ++ r)) [' '] = some (twoDigits n ++ r) := by
  simp only [twoDigits, List.cons_append, List.nil_append]
  exact skip_space _ _ (digitChar_ne_space _ (by omega) (by omega))

theorem skip_space_four (n : Int) (r : GoString) (h0 : 0 ≤ n) (h1 : n < 10000) :
    skip (' ' :: (fourDigits n ++ r)) [' '] = some (fourDigits n ++ r) := by
  simp only [fourDigits, List.cons_append, List.nil_append]
  exact skip_space _ _ (digitChar_ne_space _ (by omega) (by omega))

theorem skip_space_month (k : Nat) (hk : k < 12) (r : GoString) :
    skip (' ' :: (shortMonthNames.getD k [] ++ r)) [' '] =
      some (shortMonthNames.getD k [] ++ r) := by
  interval_cases k <;> exact skip_space _ _ (by decide)

theorem skip_space_sign (east : Bool) (r : GoString) :
    skip (' ' :: (if east then '+' else '-') :: r) [' '] =
      some ((if east then '+' else '-') :: r) := by
  cases east <;> exact skip_space _ _ (by decide)

theorem parseStd_weekday (s0 : ParseState) (w : Nat) (hw : w < 7) (rest : GoString) :
    parseStd .stdWeekDay s0 (shortDayNames.getD w [] ++ rest) = some (s0, rest) := by
  simp only [parseStd, lookup_dayName w hw rest, Option.bind_eq_bind, Option.some_bind]

theorem parseStd_monthName (s0 : ParseState) (m : Int) (hm0 : 1 ≤ m) (hm1 : m ≤ 12)
    (rest : GoString) :
    parseStd .stdMonth s0 (shortMonthNames.getD (m - 1).toNat [] ++ rest) =
      some ({ s0 with month := m }, rest) := by
  have hk : (m - 1).toNat < 12 := by omega
  have hv : (((m - 1).toNat : Nat) : Int) + 1 = m := by omega
  simp only [parseStd, lookup_monthName _ hk rest, Option.bind_eq_bind, Option.some_bind, hv]

theorem parseStd_numTZ (s0 : ParseState) (east : Bool) (zh zm : Int) (hh0 : 0 ≤ zh)
    (hh1 : zh ≤ 23) (hm0 : 0 ≤ zm) (hm1 : zm ≤ 59) :
    parseStd .stdNumTZ s0 ((if east then '+' else '-') :: (twoDigits zh ++ twoDigits zm)) =
      some ({ s0 with zoneOffset :=
        if east then (zh * 60 + zm) * 60 else -((zh * 60 + zm) * 60) }, []) := by
  have hlen : ¬ (((if east then '+' else '-') :: (twoDigits zh ++ twoDigits zm)).length < 5) := by
    simp [twoDigits]
  have e1 : ((if east then '+' else '-') :: (twoDigits zh ++ twoDigits zm)).take 1 =
      [if east then '+' else '-'] := by simp
  have e2 : (((if east then '+' else '-') :: (twoDigits zh ++ twoDigits zm)).drop 1).take 2 =
      twoDigits zh := by simp [twoDigits]
  have e3 : (((if east then '+' else '-') :: (twoDigits zh ++ twoDigits zm)).drop 3).take 2 =
      twoDigits zm := by simp [twoDigits]
  have e4 : ((if east then '+' else '-') :: (twoDigits zh ++ twoDigits zm)).drop 5 = [] := by
    simp [twoDigits]
  have hoff := parseOffset_two [if east then '+' else '-'] zh zm hh0 (by omega) hm0 (by omega)
  simp only [parseStd, if_neg hlen, e1, e2, e3, e4, hoff]
  cases east <;> simp

theorem fields_ok (p : SourceStamp) (hv : p.Valid) : FieldsOk p.fields := by
  obtain ⟨_, hy0, hy1, hm0, hm1, hd0, hd1, hh0, hh1, hmi0, hmi1, hs0, hs1, _, _, _, _⟩ := hv
  have hdi := daysIn_eq p.year p.month hy0 hm0 hm1
  refine ⟨hy0, hy1, hm0, hm1, hd0, ?_, hh0, ?_, hmi0, ?_, hs0, ?_, ?_, ?_⟩
  · show p.day ≤ daysIn p.month p.year
    rw [hdi]
    exact hd1
  · show p.hour < 24
    omega
  · show p.min < 60
    omega
  · show p.sec < 60
    omega
  · show (0 : Int) ≤ 0
    exact le_refl _
  · show (0 : Int) < 1000000000
    norm_num

theorem zone_bounds (p : SourceStamp) (hv : p.Valid) :
    -90000 < p.zone ∧ p.zone < 90000 ∧ p.zone % 60 = 0 := by
  obtain ⟨_, _, _, _, _, _, _, _, _, _, _, _, _, hz0, hz1, hz2, hz3⟩ := hv
  unfold SourceStamp.zone
  cases p.east <;> simp only [Bool.false_eq_true, if_false, if_true] <;> omega

theorem parse_text (p : SourceStamp) (hv : p.Valid) :
    timeParse layoutRFC1123Z p.text = some (timeOfFields p.fields p.zone) := by
  have hok := fields_ok p hv
  have hzb := zone_bounds p hv
  obtain ⟨hw, hy0, hy1, hm0, hm1, hd0, hd1, hh0, hh1, hmi0, hmi1, hs0, hs1, hz0, hz1, hz2, hz3⟩ :=
    hv
  have hd99 : p.day < 100 := by
    have := daysIn_le p.month p.year hm0 hm1
    have := hok.2.2.2.2.2.1
    have hday : p.fields.day = p.day := rfl
    have hmo : p.fields.month = p.month := rfl
    have hye : p.fields.year = p.year := rfl
    rw [hday, hmo, hye] at this
    omega
  have hfrac : commaOrPeriod ((' ' :: (if p.east then '+' else '-') ::
      (twoDigits p.zoneHour ++ twoDigits p.zoneMin)).headD ' ') = false := by
    rfl
  have hloop : parseLoop layoutRFC1123Z.chunks {} p.text = some (p.fields, []) := by
    simp only [layoutRFC1123Z, SourceStamp.text, parseLoop, List.append_assoc,
      List.singleton_append, List.cons_append, List.nil_append,
      show "".toList = ([] : List Char) from rfl, show ", ".toList = [',', ' '] from rfl,
      show " ".toList = [' '] from rfl, show ":".toList = [':'] from rfl,
      skip_nil, Option.bind_eq_bind, Option.some_bind,
      parseStd_weekday _ p.weekday hw, skip_comma_space_two p.day _ (by omega) hd99,
      parseStd_day _ p.day _ (by omega) hd99, skip_space_month _ (by omega : (p.month - 1).toNat < 12),
      parseStd_monthName _ p.month hm0 hm1, skip_space_four p.year _ hy0 (by omega),
      parseStd_year _ p.year _ hy0 (by omega), skip_space_two p.hour _ hh0 (by omega),
      parseStd_hour _ p.hour _ hh0 (by omega),
      skip_char ':' _ (by decide), parseStd_minute _ p.min _ hmi0 (by omega),
      parseStd_second _ p.sec _ hs0 (by omega) hfrac, skip_space_sign,
      parseStd_numTZ _ p.east p.zoneHour p.zoneMin hz0 hz1 hz2 hz3]
    rfl
  have hfin := finishParse_ok p.fields hok (fun _ => hzb.2.2)
  simp only [timeParse, hloop, Option.bind_eq_bind, Option.some_bind,
    show layoutRFC1123Z.tail = [] from rfl, skip_nil, List.length_nil, ne_eq, not_true_eq_false,
    if_false, hfin]
  rfl

/-! ## Date normalisation: main results -/

/-- Every string that `time.Parse` accepts under the source layout with a zone
offset below 25 hours is turned by `parseDate` into the RFC 3339 text of the
parsed time, and that text parses back under the RFC 3339 layout to the same
second and the same zone, with no fraction of a second. -/
theorem accepted_round_trip (s : GoString) (t : Time)
    (hparse : timeParse layoutRFC1123Z s = some t)
    (hz0 : -90000 < t.offset) (hz1 : t.offset < 90000) :
    parseDate s = formatRFC3339 t ∧
    ∃ u, timeParse layoutRFC3339 (parseDate s) = some u ∧
      u.unix = t.unix ∧ u.nsec = 0 ∧ u.offset = t.offset ∧ (t.nsec = 0 → u.Equal t) := by
  have hne : s ≠ [] := by
    intro he
    have hnil : timeParse layoutRFC1123Z [] = none := by decide
    rw [he, hnil] at hparse
    exact absurd hparse (by simp)
  have hpd : parseDate s = formatRFC3339 t := by
    simp only [parseDate, if_neg hne, hparse]
  obtain ⟨st, zone, hok, hz60, _, _, rfl⟩ := parse_rfc1123z_inv hparse
  have hzo : (timeOfFields st zone).offset = zone := rfl
  rw [hzo] at hz0 hz1
  refine ⟨hpd, timeOfFields { st with nsec := 0 } zone, ?_, rfl, rfl, rfl, ?_⟩
  · rw [hpd, formatRFC3339_eq st zone hok (by omega) (by omega) hz60]
    exact parse_render st zone hok hz0 hz1 hz60
  · intro hn
    exact ⟨rfl, hn.symm⟩

theorem unix_timeOfFields (p : SourceStamp) (hv : p.Valid) :
    (timeOfFields p.fields p.zone).unix = p.unix := by
  obtain ⟨_, hy0, hy1, hm0, hm1, _⟩ := hv
  have h1 := daysSinceEpoch_civil p.year hy0 hy1
  have h2 := ydayOf_eq p.year p.month p.day hy0 hm0 hm1
  simp only [timeOfFields, absOf, SourceStamp.fields, SourceStamp.unix, unixToAbsolute, h1, h2]
  omega

/-- Claim C2. For every valid timestamp of the source format (weekday name,
two-digit day, month name, four-digit year, time of day and a numeric zone of at
most 23 hours 59 minutes), `time.Parse` accepts it and reads the instant it
denotes on the calendar, `parseDate` returns its canonical RFC 3339 text, and
that text parses back under the RFC 3339 layout to the same instant, in the
same zone. -/
theorem date_round_trip (s : GoString) (p : SourceStamp) (hv : p.Valid) (hs : s = p.text) :
    parseDate s = p.canonical ∧
    ∃ t u, timeParse layoutRFC1123Z s = some t ∧ t.unix = p.unix ∧ t.nsec = 0 ∧
      t.offset = p.zone ∧
      timeParse layoutRFC3339 (parseDate s) = some u ∧ u.Equal t ∧ u.offset = t.offset := by
  have hparse := parse_text p hv
  have hzb := zone_bounds p hv
  have hok := fields_ok p hv
  rw [← hs] at hparse
  have hrt := accepted_round_trip s _ hparse hzb.1 hzb.2.1
  obtain ⟨hpd, u, hu, _, _, huo, heq⟩ := hrt
  refine ⟨?_, timeOfFields p.fields p.zone, u, hparse, unix_timeOfFields p hv, rfl, rfl, hu,
    heq rfl, huo⟩
  rw [hpd]
  exact formatRFC3339_eq p.fields p.zone hok (by omega) (by omega) hzb.2.2

set_option maxRecDepth 100000 in
/-- The reference time of the specification: "Mon, 02 Jan 2006 15:04:05 -0700"
is a valid timestamp, gives "2006-01-02T15:04:05-07:00", and both texts read
as second 1136239445 of the Unix clock. -/
theorem date_round_trip_witness :
    IsSourceStamp "Mon, 02 Jan 2006 15:04:05 -0700".toList ∧
    parseDate "Mon, 02 Jan 2006 15:04:05 -0700".toList = "2006-01-02T15:04:05-07:00".toList ∧
    ∃ t u, timeParse layoutRFC1123Z "Mon, 02 Jan 2006 15:04:05 -0700".toList = some t ∧
      t.unix = 1136239445 ∧
      timeParse layoutRFC3339 (parseDate "Mon, 02 Jan 2006 15:04:05 -0700".toList) = some u ∧
      u.Equal t :=
  have h := date_round_trip "Mon, 02 Jan 2006 15:04:05 -0700".toList
    ⟨1, 2, 1, 2006, 15, 4, 5, false, 7, 0⟩ (by decide) (by decide)
  ⟨⟨⟨1, 2, 1, 2006, 15, 4, 5, false, 7, 0⟩, by decide, by decide⟩, h.1.trans (by decide),
    h.2.elim fun t ht => ht.elim fun u hu =>
      ⟨t, u, hu.1, hu.2.1.trans (by decide), hu.2.2.2.2.1, hu.2.2.2.2.2.1⟩⟩

/-- Claim C3. `parseDate` is total, and on the empty string and on every string
that does not parse under the source layout it returns its argument unchanged,
so that the "date" value of such an item is the raw publish date. -/
theorem parseDate_passthrough (s : GoString)
    (h : s = [] ∨ timeParse layoutRFC1123Z s = none) :
    parseDate s = s ∧ ∀ item : Item, item.PubDate = s → pubDateOf item = s := by
  have hp : parseDate s = s := by
    rcases h with h | h
    · rw [h]
      rfl
    · unfold parseDate
      split
      · rename_i he
        exact he.symm
      · rw [h]
  refine ⟨hp, ?_⟩
  intro item hi
  rw [pubDateOf, hi, hp]

/-- The malformed date "not-a-date" is passed through. -/
theorem parseDate_passthrough_witness :
    timeParse layoutRFC1123Z "not-a-date".toList = none ∧
    parseDate "not-a-date".toList = "not-a-date".toList ∧ parseDate [] = [] :=
  ⟨by decide, (parseDate_passthrough "not-a-date".toList (Or.inr (by decide))).1, by decide⟩

/-! ## Document assembly -/

theorem markdownFormat_eq :
    markdownFormat = ['-', '-', '-', '\n', 't', 'i', 't', 'l', 'e', ':', ' ', '"', '%', 's',
      '"', '\n', 'd', 'a', 't', 'e', ':', ' ', '%', 's', '\n', 'u', 'p', 'd', 'a', 't', 'e', 'd',
      ':', ' ', '%', 's', '\n', 'c', 'a', 't', 'e', 'g', 'o', 'r', 'i', 'e', 's', ':', '\n', '\t',
      '-', ' ', '%', 's', '\n', '-', '-', '-', '\n', '\n', '%', 's'] := by
  decide

theorem assemble_eq (item : Item) (body : GoString) :
    assemble item body =
      headerTop item ++ "categories:\n".toList ++ categoryBlock item ++
        "---\n".toList ++ "\n".toList ++ body := by
  simp [assemble, markdownFormat_eq, Sprintf, sprintfExtra, headerTop, categoryBlock]

theorem linesFrom_line (cur l rest : GoString) (h : '\n' ∉ l) :
    linesFrom cur (l ++ '\n' :: rest) = (cur ++ l) :: linesFrom [] rest := by
  induction l generalizing cur with
  | nil => simp [linesFrom]
  | cons c cs ih =>
    have hc : c ≠ '\n' := fun he => h (by rw [he]; exact List.mem_cons_self _ _)
    have hcs : '\n' ∉ cs := fun hm => h (List.mem_cons_of_mem _ hm)
    rw [List.cons_append]
    simp only [linesFrom, if_neg hc]
    rw [ih _ hcs]
    simp

theorem Join_bullets (c : GoString) (cs : List GoString) :
    "\t- ".toList ++ Join (c :: cs) "\n\t- ".toList ++ "\n".toList =
      (bulletLine c ++ ['\n']) ++
        (match cs with
          | [] => []
          | d :: ds => "\t- ".toList ++ Join (d :: ds) "\n\t- ".toList ++ "\n".toList) := by
  cases cs with
  | nil => simp [Join, bulletLine]
  | cons d ds => simp [Join, bulletLine]

theorem lines_bullets (cs : List GoString) (hne : cs ≠ []) (h : ∀ c ∈ cs, '\n' ∉ c) :
    linesOf ("\t- ".toList ++ Join cs "\n\t- ".toList ++ "\n".toList) = cs.map bulletLine := by
  induction cs with
  | nil => exact absurd rfl hne
  | cons c cs ih =>
    have hc : '\n' ∉ bulletLine c := by
      have := h c (List.mem_cons_self _ _)
      simp only [bulletLine, List.mem_append, not_or]
      exact ⟨by decide, this⟩
    rw [Join_bullets, linesOf, List.append_assoc, List.singleton_append,
      linesFrom_line [] _ _ hc]
    cases cs with
    | nil => simp [linesFrom]
    | cons d ds =>
      have ih2 := ih (by simp) (fun x hx => h x (List.mem_cons_of_mem _ hx))
      rw [linesOf] at ih2
      simp only [List.nil_append, List.map_cons, List.cons.injEq, true_and]
      simpa using ih2

/-- Claim C4. The "updated" value of a document is the normalised publish date
when the normalised update date is empty and the normalised update date
otherwise; with an absent update date it equals the "date" value, whatever the
publish date; and these two values are the ones on the "date:" and "updated:"
lines of the assembled document. -/
theorem updated_fallback (item : Item) (body : GoString) :
    updateDateOf item =
      (if parseDate item.UpdateDate = [] then parseDate item.PubDate
        else parseDate item.UpdateDate) ∧
    (item.UpdateDate = [] → updateDateOf item = pubDateOf item) ∧
    assemble item body =
      "---\n".toList ++ ("title: \"".toList ++ item.Title ++ "\"\n".toList) ++
        ("date: ".toList ++ pubDateOf item ++ "\n".toList) ++
        ("updated: ".toList ++ updateDateOf item ++ "\n".toList) ++
        ("categories:\n".toList ++ categoryBlock item ++ "---\n".toList ++ "\n".toList ++ body) := by
  refine ⟨rfl, ?_, ?_⟩
  · intro h
    simp [updateDateOf, h, parseDate]
  · rw [assemble_eq, headerTop]
    simp only [List.append_assoc]

/-- An item without update date and with a malformed publish date: both values
are the raw publish date. -/
theorem updated_fallback_witness :
    updateDateOf ⟨"T".toList, "not-a-date".toList, [], [], []⟩ = "not-a-date".toList ∧
    pubDateOf ⟨"T".toList, "not-a-date".toList, [], [], []⟩ = "not-a-date".toList :=
  ⟨((updated_fallback ⟨"T".toList, "not-a-date".toList, [], [], []⟩ []).2.1 rfl).trans
    (by decide), by decide⟩

/-- Claim C5. For an item with at least one category label, none of which has a
line break, the part of the document between the line "categories:" and the
closing "---" line consists of exactly one line per label, the i-th being a
tab, "- " and the i-th label, in feed order. -/
theorem categories_in_order (item : Item) (body : GoString)
    (hne : item.Categories ≠ []) (hnl : ∀ c ∈ item.Categories, '\n' ∉ c) :
    assemble item body =
      headerTop item ++ "categories:\n".toList ++ categoryBlock item ++
        "---\n".toList ++ "\n".toList ++ body ∧
    linesOf (categoryBlock item) = item.Categories.map bulletLine ∧
    (linesOf (categoryBlock item)).length = item.Categories.length ∧
    ∀ (i : Nat) (c : GoString), item.Categories[i]? = some c →
      (linesOf (categoryBlock item))[i]? = some ("\t- ".toList ++ c) := by
  have hl : linesOf (categoryBlock item) = item.Categories.map bulletLine :=
    lines_bullets item.Categories hne hnl
  refine ⟨assemble_eq item body, hl, ?_, ?_⟩
  · rw [hl, List.length_map]
  · intro i c hc
    simp [hl, hc, bulletLine]

/-- The labels "Tech" and "Go" give the bullet lines of Tech, then of Go. -/
theorem categories_in_order_witness :
    linesOf (categoryBlock ⟨[], [], [], [], ["Tech".toList, "Go".toList]⟩) =
      ["\t- Tech".toList, "\t- Go".toList] :=
  ((categories_in_order ⟨[], [], [], [], ["Tech".toList, "Go".toList]⟩ [] (by decide)
    (by decide)).2.1).trans (by decide)

/-- Claim C6, on the code. For an item without categories the part between the
line "categories:" and the closing "---" line is not empty: it is one bullet
line with an empty label, so "categories:" is not directly followed by "---". -/
theorem zero_categories_bullet :
    assemble ⟨"T".toList, [], [], [], []⟩ "b".toList =
      "---\ntitle: \"T\"\ndate: \nupdated: \ncategories:\n\t- \n---\n\nb".toList ∧
    assemble ⟨"T".toList, [], [], [], []⟩ "b".toList ≠
      "---\ntitle: \"T\"\ndate: \nupdated: \ncategories:\n---\n\nb".toList ∧
    categoryBlock ⟨"T".toList, [], [], [], []⟩ = "\t- \n".toList ∧
    linesOf (categoryBlock ⟨"T".toList, [], [], [], []⟩) = ["\t- ".toList] := by
  decide

/-- Claim C7. The assembled document is the "---" line, the quoted title line
with the title as it is, the "date:" line, the "updated:" line, the line
"categories:", the category block, the closing "---" line, one empty line and
the rendered body, in this order; the body is a suffix of the document, and it
is the raw content when the conversion fails. -/
theorem document_layout (convert : GoString → Option GoString) (item : Item) (b : GoString) :
    assemble item b =
      "---\n".toList ++ ("title: \"".toList ++ item.Title ++ "\"\n".toList) ++
        ("date: ".toList ++ pubDateOf item ++ "\n".toList) ++
        ("updated: ".toList ++ updateDateOf item ++ "\n".toList) ++
        "categories:\n".toList ++
        ("\t- ".toList ++ Join item.Categories "\n\t- ".toList ++ "\n".toList) ++
        "---\n".toList ++ "\n".toList ++ b ∧
    b <:+ assemble item b ∧
    markdownContent convert item = assemble item (convertHTMLToMarkdown convert item.Content) ∧
    (convert item.Content = none → convertHTMLToMarkdown convert item.Content = item.Content) := by
  have h := assemble_eq item b
  refine ⟨h, ?_, rfl, ?_⟩
  · rw [h]
    exact List.suffix_append _ _
  · intro hc
    simp [convertHTMLToMarkdown, hc]

set_option maxRecDepth 100000 in
/-- The document of the scenario of the specification, with a body left
unconverted. -/
theorem document_layout_witness :
    markdownContent (fun _ => none)
        ⟨"Hello, World! 2024".toList, "Mon, 02 Jan 2006 15:04:05 -0700".toList, [],
          "<b>hi</b>".toList, ["Tech".toList, "Go".toList]⟩ =
      ("---\ntitle: \"Hello, World! 2024\"\ndate: 2006-01-02T15:04:05-07:00\n" ++
        "updated: 2006-01-02T15:04:05-07:00\ncategories:\n\t- Tech\n\t- Go\n---\n\n" ++
        "<b>hi</b>").toList :=
  ((document_layout (fun _ => none)
    ⟨"Hello, World! 2024".toList, "Mon, 02 Jan 2006 15:04:05 -0700".toList, [],
      "<b>hi</b>".toList, ["Tech".toList, "Go".toList]⟩ []).2.2.1).trans (by decide)

/-! ## The output directory -/

theorem filePathOf_inj {s t : GoString} :
    filePathOf s = filePathOf t ↔ fileNameOf s = fileNameOf t := by
  unfold filePathOf
  exact List.append_right_inj _

theorem read_put_same (d : Dir) (p c : GoString) : (d.put p c).read p = some c := by
  simp [Dir.put, Dir.read]

theorem count_put_same (d : Dir) (p c : GoString) : (d.put p c).count p = 1 := by
  simp [Dir.put, Dir.count, List.filter_filter]

theorem find_filter_ne (d : Dir) {p q : GoString} (h : q ≠ p) :
    (d.filter (fun e => e.1 ≠ q)).find? (fun e => e.1 = p) = d.find? (fun e => e.1 = p) := by
  induction d with
  | nil => rfl
  | cons e es ih =>
    by_cases he : e.1 = q
    · have hep : ¬ e.1 = p := fun hp => h (he.symm.trans hp)
      rw [List.filter_cons_of_neg (by simpa using he), List.find?_cons_of_neg _ (by simpa using hep)]
      exact ih
    · rw [List.filter_cons_of_pos (by simpa using he)]
      by_cases hep : e.1 = p
      · rw [List.find?_cons_of_pos _ (by simpa using hep),
          List.find?_cons_of_pos _ (by simpa using hep)]
      · rw [List.find?_cons_of_neg _ (by simpa using hep),
          List.find?_cons_of_neg _ (by simpa using hep)]
        exact ih

theorem read_put_ne (d : Dir) {p q : GoString} (c : GoString) (h : q ≠ p) :
    (d.put q c).read p = d.read p := by
  simp only [Dir.put, Dir.read]
  rw [List.find?_cons_of_neg _ (by simpa using h), find_filter_ne d h]

theorem count_put_ne (d : Dir) {p q : GoString} (c : GoString) (h : q ≠ p) :
    (d.put q c).count p = d.count p := by
  simp only [Dir.put, Dir.count]
  rw [List.filter_cons_of_neg (by simpa using h), List.filter_filter]
  congr 1
  apply List.filter_congr
  intro e _
  by_cases hep : e.1 = p
  · have : e.1 ≠ q := fun hq => h (hq.symm.trans hep)
    simp [hep, this]
    exact fun hpq => h hpq.symm
  · simp [hep]

theorem writeFile_frame (o : WriteOutcome) (d : Dir) {p q : GoString} (data : GoString)
    (h : q ≠ p) :
    (writeFile o d q data).read p = d.read p ∧ (writeFile o d q data).count p = d.count p := by
  cases o with
  | ok => exact ⟨read_put_ne d data h, count_put_ne d data h⟩
  | notOpened => exact ⟨rfl, rfl⟩
  | stopped n => exact ⟨read_put_ne d _ h, count_put_ne d _ h⟩

theorem processItems_frame (convert : GoString → Option GoString)
    (outcome : Nat → WriteOutcome) (p : GoString) :
    ∀ (items : List Item) (i0 : Nat) (d : Dir),
      (∀ c ∈ items, filePathOf c.Title ≠ p) →
      (processItems convert outcome i0 items d).read p = d.read p ∧
        (processItems convert outcome i0 items d).count p = d.count p := by
  intro items
  induction items with
  | nil => intro i0 d _; exact ⟨rfl, rfl⟩
  | cons a rest ih =>
    intro i0 d h
    have ha := h a (List.mem_cons_self _ _)
    have hw := writeFile_frame (outcome i0) d (markdownContent convert a) ha
    have hr := ih (i0 + 1) (writeFile (outcome i0) d (filePathOf a.Title)
      (markdownContent convert a)) (fun c hc => h c (List.mem_cons_of_mem _ hc))
    simp only [processItems]
    exact ⟨hr.1.trans hw.1, hr.2.trans hw.2⟩

theorem processItems_last (convert : GoString → Option GoString)
    (outcome : Nat → WriteOutcome) :
    ∀ (items : List Item) (i0 : Nat) (d : Dir) (k : Nat) (b : Item),
      items[k]? = some b → outcome (i0 + k) = .ok →
      (∀ m c, k < m → items[m]? = some c → filePathOf c.Title ≠ filePathOf b.Title) →
      (processItems convert outcome i0 items d).read (filePathOf b.Title) =
          some (markdownContent convert b) ∧
        (processItems convert outcome i0 items d).count (filePathOf b.Title) = 1 := by
  intro items
  induction items with
  | nil => intro i0 d k b hk; simp at hk
  | cons a rest ih =>
    intro i0 d k b hk hok hlast
    cases k with
    | zero =>
      simp only [List.getElem?_cons_zero, Option.some.injEq] at hk
      subst hk
      have hrest : ∀ c ∈ rest, filePathOf c.Title ≠ filePathOf a.Title := by
        intro c hc
        obtain ⟨m, hm⟩ := List.getElem?_of_mem hc
        exact hlast (m + 1) c (Nat.succ_pos m) (by simpa using hm)
      have hf := processItems_frame convert outcome (filePathOf a.Title) rest (i0 + 1)
        (writeFile (outcome i0) d (filePathOf a.Title) (markdownContent convert a)) hrest
      simp only [Nat.add_zero] at hok
      simp only [processItems]
      rw [hf.1, hf.2, hok]
      exact ⟨read_put_same _ _ _, count_put_same _ _ _⟩
    | succ k =>
      simp only [List.getElem?_cons_succ] at hk
      have hok2 : outcome (i0 + 1 + k) = .ok := by
        rw [← hok]
        congr 1
        omega
      simp only [processItems]
      exact ih (i0 + 1) _ k b hk hok2
        (fun m c hm hc => hlast (m + 1) c (by omega) (by simpa using hc))

/-- Claim C8. Last writer wins: when two items of a feed have titles that
sanitize to the same file name, both writes succeed and no item after the
second has that file name, then after the run the directory holds exactly one
file of that name and its content is the document of the second item. -/
theorem last_writer_wins (convert : GoString → Option GoString)
    (outcome : Nat → WriteOutcome) (items : List Item) (d0 : Dir) (i j : Nat) (a b : Item)
    (_hi : items[i]? = some a) (hj : items[j]? = some b) (_hij : i < j)
    (hsame : fileNameOf a.Title = fileNameOf b.Title)
    (_hoki : outcome i = .ok) (hokj : outcome j = .ok)
    (hlast : ∀ k c, j < k → items[k]? = some c → fileNameOf c.Title ≠ fileNameOf b.Title) :
    (main convert outcome items d0).count (filePathOf a.Title) = 1 ∧
    (main convert outcome items d0).read (filePathOf a.Title) =
      some (markdownContent convert b) := by
  have hp : filePathOf a.Title = filePathOf b.Title := filePathOf_inj.mpr hsame
  have h := processItems_last convert outcome items 0 d0 j b hj (by simpa using hokj)
    (fun m c hm hc hpc => hlast m c hm hc (filePathOf_inj.mp hpc))
  rw [hp]
  exact ⟨h.2, h.1⟩

/-- The titles "A!" and "A?" both give "A.md", which ends up holding the
document of the second item. -/
theorem last_writer_wins_witness :
    filePathOf "A!".toList = "output/A.md".toList ∧
    filePathOf "A?".toList = "output/A.md".toList ∧
    (main (fun _ => none) (fun _ => .ok)
      [⟨"A!".toList, [], [], "one".toList, []⟩, ⟨"A?".toList, [], [], "two".toList, []⟩]
      []).count (filePathOf "A!".toList) = 1 ∧
    (main (fun _ => none) (fun _ => .ok)
      [⟨"A!".toList, [], [], "one".toList, []⟩, ⟨"A?".toList, [], [], "two".toList, []⟩]
      []).read (filePathOf "A!".toList) =
      some (markdownContent (fun _ => none) ⟨"A?".toList, [], [], "two".toList, []⟩) :=
  ⟨by decide, by decide,
    last_writer_wins (fun _ => none) (fun _ => .ok)
      [⟨"A!".toList, [], [], "one".toList, []⟩, ⟨"A?".toList, [], [], "two".toList, []⟩]
      [] 0 1 ⟨"A!".toList, [], [], "one".toList, []⟩ ⟨"A?".toList, [], [], "two".toList, []⟩
      rfl rfl (by decide) (by decide) rfl rfl
      (fun k c hk hc => by
        have : k = k - 2 + 2 := by omega
        rw [this] at hc
        simp at hc)⟩

theorem length_writeFile_le (o : WriteOutcome) (d : Dir) (p data : GoString) :
    (writeFile o d p data).length ≤ d.length + 1 := by
  cases o with
  | ok =>
    simp only [writeFile, Dir.put, List.length_cons]
    exact Nat.succ_le_succ (List.length_filter_le _ _)
  | notOpened => exact Nat.le_succ _
  | stopped n =>
    simp only [writeFile, Dir.put, List.length_cons]
    exact Nat.succ_le_succ (List.length_filter_le _ _)

theorem processItems_length_le (convert : GoString → Option GoString)
    (outcome : Nat → WriteOutcome) :
    ∀ (items : List Item) (i0 : Nat) (d : Dir),
      (processItems convert outcome i0 items d).length ≤ d.length + items.length := by
  intro items
  induction items with
  | nil => intro i0 d; exact Nat.le_refl _
  | cons a rest ih =>
    intro i0 d
    have h1 := ih (i0 + 1) (writeFile (outcome i0) d (filePathOf a.Title)
      (markdownContent convert a))
    have h2 := length_writeFile_le (outcome i0) d (filePathOf a.Title)
      (markdownContent convert a)
    simp only [processItems, List.length_cons]
    omega

theorem put_of_not_mem (d : Dir) (p c : GoString) (h : p ∉ d.map Prod.fst) :
    d.put p c = (p, c) :: d := by
  simp only [Dir.put, List.cons.injEq, true_and]
  rw [List.filter_eq_self]
  intro e he
  have : e.1 ≠ p := fun hp => h (List.mem_map.mpr ⟨e, he, hp⟩)
  simpa using this

theorem processItems_length_eq (convert : GoString → Option GoString)
    (outcome : Nat → WriteOutcome) :
    ∀ (items : List Item) (i0 : Nat) (d : Dir),
      (∀ k, k < items.length → outcome (i0 + k) = .ok) →
      (items.map (fun it => filePathOf it.Title)).Nodup →
      (∀ c ∈ items, filePathOf c.Title ∉ d.map Prod.fst) →
      (processItems convert outcome i0 items d).length = d.length + items.length := by
  intro items
  induction items with
  | nil => intro i0 d _ _ _; rfl
  | cons a rest ih =>
    intro i0 d hok hnd hfresh
    have hok0 : outcome i0 = .ok := by simpa using hok 0 (by simp)
    have ha : filePathOf a.Title ∉ d.map Prod.fst := hfresh a (List.mem_cons_self _ _)
    rw [List.map_cons, List.nodup_cons] at hnd
    simp only [processItems, hok0, writeFile, put_of_not_mem d _ _ ha]
    rw [ih (i0 + 1) _ ?_ hnd.2 ?_]
    · simp only [List.length_cons]
      omega
    · intro k hk
      have := hok (k + 1) (by simpa using hk)
      rw [← this]
      congr 1
      omega
    · intro c hc
      simp only [List.map_cons, List.mem_cons, not_or]
      refine ⟨?_, hfresh c (List.mem_cons_of_mem _ hc)⟩
      intro he
      exact hnd.1 (List.mem_map.mpr ⟨c, hc, he⟩)

/-- Claim C9, as the code has it. From an empty directory, a run over N items
leaves at most N files; it leaves exactly N when every write succeeds and the
file names of the items are pairwise distinct; and whatever happened to the
writes before it, an item whose write succeeds and whose file name no later
item has, has its document in the directory. -/
theorem output_count (convert : GoString → Option GoString) (outcome : Nat → WriteOutcome)
    (items : List Item) :
    (main convert outcome items []).length ≤ items.length ∧
    ((∀ k, k < items.length → outcome k = .ok) →
      (items.map (fun it => fileNameOf it.Title)).Nodup →
      (main convert outcome items []).length = items.length) ∧
    (∀ (j : Nat) (b : Item), items[j]? = some b → outcome j = .ok →
      (∀ k c, j < k → items[k]? = some c → fileNameOf c.Title ≠ fileNameOf b.Title) →
      (main convert outcome items []).read (filePathOf b.Title) =
        some (markdownContent convert b)) := by
  refine ⟨?_, ?_, ?_⟩
  · simpa [main] using processItems_length_le convert outcome items 0 []
  · intro hok hnd
    have hnd2 : (items.map (fun it => filePathOf it.Title)).Nodup := by
      have hinj : ∀ x y : GoString, outputDir ++ "/".toList ++ x = outputDir ++ "/".toList ++ y →
          x = y := fun x y h => (List.append_right_inj _).mp h
      have := List.Nodup.map (f := fun x => outputDir ++ "/".toList ++ x) (fun x y h => hinj x y h) hnd
      simpa [List.map_map, Function.comp_def, filePathOf] using this
    have := processItems_length_eq convert outcome items 0 [] (by simpa using hok) hnd2
      (by simp)
    simpa [main] using this
  · intro j b hj hok hlast
    exact (processItems_last convert outcome items 0 [] j b hj (by simpa using hok)
      (fun m c hm hc hpc => hlast m c hm hc (filePathOf_inj.mp hpc))).1

/-- Three items with distinct file names, the first write failing: the two
later documents are written; and with all writes succeeding, three files. -/
theorem output_count_witness :
    (main (fun _ => none) (fun k => if k = 0 then .notOpened else .ok)
      [⟨"A".toList, [], [], [], []⟩, ⟨"B".toList, [], [], [], []⟩, ⟨"C".toList, [], [], [], []⟩]
      []).length = 2 ∧
    (main (fun _ => none) (fun _ => .ok)
      [⟨"A".toList, [], [], [], []⟩, ⟨"B".toList, [], [], [], []⟩, ⟨"C".toList, [], [], [], []⟩]
      []).length = 3 :=
  ⟨by decide,
    (output_count (fun _ => none) (fun _ => .ok)
      [⟨"A".toList, [], [], [], []⟩, ⟨"B".toList, [], [], [], []⟩,
        ⟨"C".toList, [], [], [], []⟩]).2.1 (fun _ _ => rfl) (by decide)⟩

/-- Claim C9 as stated fails on a collision: two items, both writes succeed,
and the directory holds one document, not two. -/
theorem output_count_collision :
    (main (fun _ => none) (fun _ => .ok)
      [⟨"A!".toList, [], [], "one".toList, []⟩, ⟨"A?".toList, [], [], "two".toList, []⟩]
      []).length = 1 ∧
    [(⟨"A!".toList, [], [], "one".toList, []⟩ : Item),
      ⟨"A?".toList, [], [], "two".toList, []⟩].length = 2 ∧
    ¬ (∀ (convert : GoString → Option GoString) (outcome : Nat → WriteOutcome)
        (items : List Item), (∀ k, outcome k = .ok) →
        (main convert outcome items []).length = items.length) := by
  refine ⟨by decide, rfl, ?_⟩
  intro h
  have := h (fun _ => none) (fun _ => .ok)
    [⟨"A!".toList, [], [], "one".toList, []⟩, ⟨"A?".toList, [], [], "two".toList, []⟩]
    (fun _ => rfl)
  revert this
  decide

end WpConverter

